import Mathlib

/-!
Verification development for the vocabulator repository: a shallow embedding
of the word catalog core (SQLite-backed word repository, word service with
CSV import/export, dictionary response normalizer) together with theorems
settling the specification claims.

Go source is modelled as follows: machine integers become Nat, Go errors
become message strings (the sentinel sql.ErrNoRows is the fixed string it
prints), time.Now() becomes an explicit clock argument, the SQLite engine
and the encoding/json and encoding/csv packages (external collaborators of
the core) are modelled by executable Lean functions that follow their
documented semantics for the data this system stores.
-/

namespace Vocab

/-- models.Word (internal/models/word.go). Go `[]string` can be nil, so the
tag slice is `Option (List String)` (`none` = nil slice). -/
structure Word where
  id : Nat
  word : String
  source : String
  dateLearned : String
  partOfSpeech : Option String
  exampleSentence : Option String
  tags : Option (List String)
  createdAt : Nat
  updatedAt : Nat
deriving Repr, DecidableEq

/-- models.CreateWordRequest. -/
structure CreateWordRequest where
  word : String
  source : String
  dateLearned : String
  partOfSpeech : Option String
  exampleSentence : Option String
  tags : Option (List String)
deriving Repr, DecidableEq

/-- models.UpdateWordRequest: every field optional. -/
structure UpdateWordRequest where
  word : Option String
  source : Option String
  dateLearned : Option String
  partOfSpeech : Option String
  exampleSentence : Option String
  tags : Option (List String)
deriving Repr, DecidableEq

/-- models.WordFilter. Go `int` fields become `Int` (they may be negative). -/
structure WordFilter where
  search : String := ""
  source : String := ""
  tag : String := ""
  fromDate : String := ""
  toDate : String := ""
  limit : Int := 0
  offset : Int := 0
deriving Repr, DecidableEq

/-- One row of the `words` table: the tags column holds the serialized JSON
text exactly as the INSERT wrote it. -/
structure Row where
  id : Nat
  word : String
  source : String
  dateLearned : String
  partOfSpeech : Option String
  exampleSentence : Option String
  tagsJson : String
  createdAt : Nat
  updatedAt : Nat
deriving Repr, DecidableEq

/-- The words table plus the AUTOINCREMENT counter. -/
structure Store where
  rows : List Row
  nextId : Nat
deriving Repr, DecidableEq

def emptyStore : Store := { rows := [], nextId := 1 }

/- ## encoding/json for a Go `[]string` value (tags column) -/

/-- Modelled from encoding/json: escaping of one character inside a JSON
string produced by Marshal (HTML escaping on, as in the default encoder):
quote and backslash get a backslash escape, newline, carriage return and tab
get their short escapes, the HTML-sensitive characters and the remaining
control characters get lower-case \u00XX escapes. -/
def goEscapeChar (c : Char) : List Char :=
  if c = '"' then ['\\', '"']
  else if c = '\\' then ['\\', '\\']
  else if c = '\n' then ['\\', 'n']
  else if c = '\r' then ['\\', 'r']
  else if c = '\t' then ['\\', 't']
  else if c = '<' then ['\\', 'u', '0', '0', '3', 'c']
  else if c = '>' then ['\\', 'u', '0', '0', '3', 'e']
  else if c = '&' then ['\\', 'u', '0', '0', '2', '6']
  else if c.toNat < 0x20 then
    ['\\', 'u', '0', '0', Nat.digitChar (c.toNat / 16), Nat.digitChar (c.toNat % 16)]
  else [c]

def goEscapeList : List Char → List Char
  | [] => []
  | c :: cs => goEscapeChar c ++ goEscapeList cs

/-- Modelled from encoding/json: Marshal of a single Go string. -/
def goQuote (s : String) : List Char :=
  '"' :: (goEscapeList s.data ++ ['"'])

def encodeTagsElems : List String → List Char
  | [] => []
  | [t] => goQuote t
  | t :: ts => goQuote t ++ (',' :: encodeTagsElems ts)

/-- Modelled from encoding/json: `json.Marshal` of a Go `[]string`; a nil
slice marshals to `null`, otherwise to a JSON array. -/
def tagsToJson : Option (List String) → String
  | none => "null"
  | some ts => ⟨'[' :: (encodeTagsElems ts ++ [']'])⟩

/-- Value of a hexadecimal digit character, if it is one. -/
def hexVal (c : Char) : Option Nat :=
  if '0' ≤ c ∧ c ≤ '9' then some (c.toNat - '0'.toNat)
  else if 'a' ≤ c ∧ c ≤ 'f' then some (c.toNat - 'a'.toNat + 10)
  else if 'A' ≤ c ∧ c ≤ 'F' then some (c.toNat - 'A'.toNat + 10)
  else none

/-- The character an escape letter denotes, for the single-letter escapes. -/
def unescChar (e : Char) : Option Char :=
  if e = '"' then some '"'
  else if e = '\\' then some '\\'
  else if e = '/' then some '/'
  else if e = 'n' then some '\n'
  else if e = 'r' then some '\r'
  else if e = 't' then some '\t'
  else if e = 'b' then some '\x08'
  else if e = 'f' then some '\x0c'
  else none

/-- Modelled from encoding/json: read the body of a JSON string after the
opening quote, returning the decoded string and the input after the closing
quote. The fuel only bounds the recursion depth; one unit per decoded
character always suffices. -/
def parseJsonString : Nat → List Char → Option (List Char × List Char)
  | 0, _ => none
  | _ + 1, [] => none
  | fuel + 1, c :: rest =>
    if c = '"' then some ([], rest)
    else if c = '\\' then
      match rest with
      | [] => none
      | e :: rest' =>
        if e = 'u' then
          match rest' with
          | h1 :: h2 :: h3 :: h4 :: rest'' =>
            match hexVal h1, hexVal h2, hexVal h3, hexVal h4 with
            | some a, some b, some c', some d =>
              (parseJsonString fuel rest'').map
                (fun p => (Char.ofNat (((a * 16 + b) * 16 + c') * 16 + d) :: p.1, p.2))
            | _, _, _, _ => none
          | _ => none
        else
          match unescChar e with
          | some c' => (parseJsonString fuel rest').map (fun p => (c' :: p.1, p.2))
          | none => none
    else (parseJsonString fuel rest).map (fun p => (c :: p.1, p.2))

/-- Elements of a JSON string array after the opening bracket; fuel bounds
the number of elements. -/
def parseTagsElems : Nat → List Char → Option (List String × List Char)
  | _, [] => none
  | 0, _ => none
  | fuel + 1, c :: rest =>
    if c = ']' then some ([], rest)
    else if c = '"' then
      match parseJsonString (rest.length + 1) rest with
      | none => none
      | some (s, rest') =>
        match rest' with
        | [] => none
        | d :: rest'' =>
          if d = ',' then
            match parseTagsElems fuel rest'' with
            | none => none
            | some (ts, r) => some ((⟨s⟩ : String) :: ts, r)
          else if d = ']' then some ([⟨s⟩], rest'')
          else none
    else none

/-- Modelled from encoding/json: `json.Unmarshal` of the tags column into a
Go `[]string`. `none` is a decode error; `some none` is JSON null (which
unmarshals to a nil slice without error); `some (some ts)` is an array. -/
def tagsFromJson (s : String) : Option (Option (List String)) :=
  if s = "null" then some none
  else match s.data with
    | '[' :: rest =>
      match parseTagsElems rest.length rest with
      | some (ts, []) => some (some ts)
      | _ => none
    | _ => none

/- ## SQLite LIKE -/

/-- ASCII lower-casing: SQLite LIKE is case-insensitive for the ASCII range
only. -/
def asciiLower (c : Char) : Char :=
  if 'A' ≤ c ∧ c ≤ 'Z' then Char.ofNat (c.toNat + 32) else c

/-- Modelled from SQLite: the LIKE operator. `%` matches any sequence, `_`
matches any single character, other characters match ASCII
case-insensitively. Every recursive call shrinks the pattern or the
subject, so fuel beyond their combined length never runs out. -/
def likeMatch : Nat → List Char → List Char → Bool
  | 0, _, _ => false
  | _ + 1, [], [] => true
  | _ + 1, [], _ :: _ => false
  | fuel + 1, '%' :: ps, s =>
    likeMatch fuel ps s ||
      (match s with
       | [] => false
       | _ :: s' => likeMatch fuel ('%' :: ps) s')
  | fuel + 1, '_' :: ps, _ :: ss => likeMatch fuel ps ss
  | _ + 1, '_' :: _, [] => false
  | fuel + 1, p :: ps, c :: ss => (asciiLower p = asciiLower c : Bool) && likeMatch fuel ps ss
  | _ + 1, _ :: _, [] => false

/-- SQLite LIKE on strings. -/
def sqliteLike (pattern s : String) : Bool :=
  likeMatch (pattern.data.length + s.data.length + 1) pattern.data s.data

/-- Lexicographic comparison of code points: the order memcmp gives SQLite
TEXT values (UTF-8 byte order equals code-point order). -/
def lexLt : List Char → List Char → Bool
  | [], [] => false
  | [], _ :: _ => true
  | _ :: _, [] => false
  | a :: as, b :: bs =>
    if a.toNat < b.toNat then true
    else if b.toNat < a.toNat then false
    else lexLt as bs

def strLt (a b : String) : Bool := lexLt a.data b.data

def strLe (a b : String) : Bool := ¬ strLt b a

/- ## SQLiteRepository.buildListQuery -/

/-- One WHERE condition together with its bound argument, in the shape the
query builder emits. -/
inductive Cond where
  | wordLike (pat : String)
  | sourceEq (v : String)
  | tagsLike (pat : String)
  | dateGe (v : String)
  | dateLe (v : String)
deriving Repr, DecidableEq

/-- Structured form of the SQL text that buildListQuery assembles;
`renderQuery` below recovers the literal query string. -/
structure SqlQuery where
  conds : List Cond
  countOnly : Bool
  limit : Option Int
  offset : Option Int
deriving Repr, DecidableEq

/-- SQLiteRepository.buildListQuery: conditions are appended in source
order, each present filter field contributing one predicate; LIMIT and
OFFSET clauses are emitted only for positive values and only for the
non-count query. -/
def buildListQuery (filter : WordFilter) (countOnly : Bool) : SqlQuery :=
  let conds :=
    (if filter.search ≠ "" then [Cond.wordLike ("%" ++ filter.search ++ "%")] else []) ++
    (if filter.source ≠ "" then [Cond.sourceEq filter.source] else []) ++
    (if filter.tag ≠ "" then [Cond.tagsLike ("%\"" ++ filter.tag ++ "\"%")] else []) ++
    (if filter.fromDate ≠ "" then [Cond.dateGe filter.fromDate] else []) ++
    (if filter.toDate ≠ "" then [Cond.dateLe filter.toDate] else [])
  { conds := conds
    countOnly := countOnly
    limit := if ¬countOnly ∧ filter.limit > 0 then some filter.limit else none
    offset := if ¬countOnly ∧ filter.offset > 0 then some filter.offset else none }

/-- The SQL fragment of one condition (the `?` placeholder form used in the
Go string building). -/
def condSql : Cond → String
  | Cond.wordLike _ => "word LIKE ?"
  | Cond.sourceEq _ => "source = ?"
  | Cond.tagsLike _ => "tags LIKE ?"
  | Cond.dateGe _ => "date_learned >= ?"
  | Cond.dateLe _ => "date_learned <= ?"

/-- The bound argument of one condition. -/
def condArg : Cond → String
  | Cond.wordLike pat => pat
  | Cond.sourceEq v => v
  | Cond.tagsLike pat => pat
  | Cond.dateGe v => v
  | Cond.dateLe v => v

/-- The literal query text buildListQuery returns (placeholders included),
reassembled from the structured form. -/
def renderQuery (q : SqlQuery) : String :=
  let base := if q.countOnly then "SELECT COUNT(*) FROM words"
    else "SELECT id, word, source, date_learned, part_of_speech, example_sentence, tags, created_at, updated_at FROM words"
  let base := if q.conds ≠ [] then
      base ++ " WHERE " ++ String.intercalate " AND " (q.conds.map condSql)
    else base
  if q.countOnly then base
  else
    let base := base ++ " ORDER BY date_learned DESC, id DESC"
    let base := match q.limit with
      | some n => base ++ " LIMIT " ++ toString n
      | none => base
    match q.offset with
    | some n => base ++ " OFFSET " ++ toString n
    | none => base

/-- Evaluation of one WHERE condition on a row (SQLite semantics: LIKE for
the two pattern conditions, binary text comparison for the others). -/
def condHolds (c : Cond) (r : Row) : Bool :=
  match c with
  | Cond.wordLike pat => sqliteLike pat r.word
  | Cond.sourceEq v => r.source = v
  | Cond.tagsLike pat => sqliteLike pat r.tagsJson
  | Cond.dateGe v => strLe v r.dateLearned
  | Cond.dateLe v => strLe r.dateLearned v

/-- ORDER BY date_learned DESC, id DESC as a relation: `rowLe a b` when `a`
sorts no later than `b`. -/
def rowLe (a b : Row) : Prop :=
  strLt b.dateLearned a.dateLearned = true ∨
    (b.dateLearned = a.dateLearned ∧ b.id ≤ a.id)

instance : DecidableRel rowLe := fun a b => by
  unfold rowLe; infer_instance

/-- The rows of the table in ORDER BY date_learned DESC, id DESC order. -/
def sortRows (rs : List Row) : List Row := rs.insertionSort rowLe

/-- Modelled from SQLite: run a query built by buildListQuery. A query with
an OFFSET clause but no LIMIT clause is a syntax error (the SQLite limit
clause grammar is LIMIT expr followed by an optional OFFSET expr); otherwise
the WHERE conditions restrict the rows, ORDER BY sorts them, and OFFSET then
LIMIT paginate. -/
def sqlExecList (q : SqlQuery) (rs : List Row) : Except String (List Row) :=
  if q.offset.isSome ∧ q.limit.isNone then
    Except.error "near \x22OFFSET\x22: syntax error"
  else
    let selected := sortRows (rs.filter (fun r => q.conds.all (fun c => condHolds c r)))
    let selected := match q.offset with
      | some n => selected.drop n.toNat
      | none => selected
    let selected := match q.limit with
      | some n => selected.take n.toNat
      | none => selected
    Except.ok selected

/-- Modelled from SQLite: run the COUNT(*) form of the query. -/
def sqlExecCount (q : SqlQuery) (rs : List Row) : Except String Nat :=
  if q.offset.isSome ∧ q.limit.isNone then
    Except.error "near \x22OFFSET\x22: syntax error"
  else
    Except.ok (rs.filter (fun r => q.conds.all (fun c => condHolds c r))).length

/- ## SQLiteRepository operations -/

/-- The message of the sql.ErrNoRows sentinel; handler code compares errors
against this sentinel with errors.Is. -/
def errNoRows : String := "sql: no rows in result set"

/-- Modelled from SQLite: the unique-constraint violation message for the
`word` column. -/
def uniqueViolation : String := "UNIQUE constraint failed: words.word"

/-- SQLiteRepository.scanWord / scanWordFromRows: unmarshal the tags column;
a decode failure surfaces as an error. -/
def scanWord (r : Row) : Except String Word :=
  match tagsFromJson r.tagsJson with
  | none => Except.error "failed to unmarshal tags"
  | some tags => Except.ok
      { id := r.id, word := r.word, source := r.source,
        dateLearned := r.dateLearned, partOfSpeech := r.partOfSpeech,
        exampleSentence := r.exampleSentence, tags := tags,
        createdAt := r.createdAt, updatedAt := r.updatedAt }

/-- SQLiteRepository.Create: marshal the tags, INSERT (the UNIQUE constraint
on `word` rejects duplicates), then return the input word with the assigned
id and both timestamps set to now. -/
def repoCreate (st : Store) (w : Word) (now : Nat) : Except String (Word × Store) :=
  if st.rows.any (fun r => r.word = w.word) then
    Except.error ("failed to insert word: " ++ uniqueViolation)
  else
    let row : Row :=
      { id := st.nextId, word := w.word, source := w.source,
        dateLearned := w.dateLearned, partOfSpeech := w.partOfSpeech,
        exampleSentence := w.exampleSentence, tagsJson := tagsToJson w.tags,
        createdAt := now, updatedAt := now }
    Except.ok
      ({ w with id := st.nextId, createdAt := now, updatedAt := now },
       { rows := st.rows ++ [row], nextId := st.nextId + 1 })

/-- SQLiteRepository.GetByID. -/
def repoGetByID (st : Store) (id : Nat) : Except String Word :=
  match st.rows.find? (fun r => r.id = id) with
  | none => Except.error errNoRows
  | some r => scanWord r

/-- SQLiteRepository.GetByWord. -/
def repoGetByWord (st : Store) (text : String) : Except String Word :=
  match st.rows.find? (fun r => r.word = text) with
  | none => Except.error errNoRows
  | some r => scanWord r

/-- The rows.Next loop of SQLiteRepository.List: scan each returned row in
order, aborting on the first scan failure. -/
def scanRows : List Row → Except String (List Word)
  | [] => Except.ok []
  | r :: rs =>
    match scanWord r with
    | Except.error e => Except.error e
    | Except.ok w =>
      match scanRows rs with
      | Except.error e => Except.error e
      | Except.ok ws => Except.ok (w :: ws)

/-- SQLiteRepository.List: build the query, run it, scan every returned
row. -/
def repoList (st : Store) (filter : WordFilter) : Except String (List Word) :=
  match sqlExecList (buildListQuery filter false) st.rows with
  | Except.error e => Except.error ("failed to query words: " ++ e)
  | Except.ok rows => scanRows rows

/-- SQLiteRepository.Count. -/
def repoCount (st : Store) (filter : WordFilter) : Except String Nat :=
  match sqlExecCount (buildListQuery filter true) st.rows with
  | Except.error e => Except.error ("failed to count words: " ++ e)
  | Except.ok n => Except.ok n

/-- SQLiteRepository.Update: a single UPDATE by id. Every matching row gets
the new field values with updated_at refreshed; created_at is not part of
the SET list. The function does not inspect the affected row count, so a
missing id is not an error; the returned word is the input with UpdatedAt
set to now. -/
def repoUpdate (st : Store) (w : Word) (now : Nat) : Except String (Word × Store) :=
  let rows := st.rows.map (fun r =>
    if r.id = w.id then
      { r with word := w.word, source := w.source, dateLearned := w.dateLearned,
               partOfSpeech := w.partOfSpeech, exampleSentence := w.exampleSentence,
               tagsJson := tagsToJson w.tags, updatedAt := now }
    else r)
  Except.ok ({ w with updatedAt := now }, { st with rows := rows })

/-- SQLiteRepository.Delete: reports sql.ErrNoRows when no row was
affected. -/
def repoDelete (st : Store) (id : Nat) : Except String Store :=
  if st.rows.any (fun r => r.id = id) then
    Except.ok { st with rows := st.rows.filter (fun r => ¬r.id = id) }
  else Except.error errNoRows

/- ## Go string helpers -/

/-- Modelled from the strings package: the white space set of
unicode.IsSpace restricted to the code points this system stores. -/
def goIsSpace (c : Char) : Bool :=
  c = ' ' ∨ c = '\t' ∨ c = '\n' ∨ c = '\x0b' ∨ c = '\x0c' ∨ c = '\r' ∨
    c.toNat = 0x85 ∨ c.toNat = 0xA0

/-- strings.TrimSpace. -/
def goTrim (s : String) : String :=
  ⟨(s.data.dropWhile goIsSpace).reverse.dropWhile goIsSpace |>.reverse⟩

/-- strings.ToLower for the ASCII range. -/
def goLower (s : String) : String := ⟨s.data.map asciiLower⟩

/-- strings.Split on a single-character separator: splits around every
occurrence, keeping empty pieces; of a nonempty string always returns at
least one piece. -/
def goSplitChar (sep : Char) (cs : List Char) : List String :=
  match cs with
  | [] => [""]
  | c :: rest =>
    match goSplitChar sep rest with
    | [] => []
    | p :: ps => if c = sep then "" :: p :: ps else (⟨c :: p.data⟩ : String) :: ps

/-- strings.Join with a single-character separator. -/
def goJoinChar (sep : Char) : List String → String
  | [] => ""
  | [t] => t
  | t :: ts => t ++ (⟨[sep]⟩ : String) ++ goJoinChar sep ts

/- ## WordService (internal/services/word.go) -/

/-- WordService.Create: validates the three required fields, pre-checks for
a duplicate through GetByWord, defaults a nil tag slice to an empty one, and
delegates to the repository. -/
def serviceCreate (st : Store) (req : CreateWordRequest) (now : Nat) :
    Except String (Word × Store) :=
  if req.word = "" then Except.error "word is required"
  else if req.source = "" then Except.error "source is required"
  else if req.dateLearned = "" then Except.error "date_learned is required"
  else
    match repoGetByWord st req.word with
    | Except.ok _ =>
      Except.error ("word \x27" ++ req.word ++ "\x27 already exists")
    | Except.error _ =>
      let w : Word :=
        { id := 0, word := req.word, source := req.source,
          dateLearned := req.dateLearned, partOfSpeech := req.partOfSpeech,
          exampleSentence := req.exampleSentence,
          tags := some ((req.tags).getD []),
          createdAt := 0, updatedAt := 0 }
      repoCreate st w now

/-- WordService.Update: load the record by id (propagating its error),
overlay exactly the fields present in the request (re-running the duplicate
pre-check when the word text changes), and write the merged record back. -/
def serviceUpdate (st : Store) (id : Nat) (req : UpdateWordRequest) (now : Nat) :
    Except String (Word × Store) :=
  match repoGetByID st id with
  | Except.error e => Except.error e
  | Except.ok word =>
    let dup : Bool :=
      match req.word with
      | some newWord =>
        if newWord ≠ word.word then
          match repoGetByWord st newWord with
          | Except.ok _ => true
          | Except.error _ => false
        else false
      | none => false
    if dup then
      Except.error ("word \x27" ++ (req.word.getD "") ++ "\x27 already exists")
    else
      let word := { word with word := req.word.getD word.word }
      let word := { word with source := req.source.getD word.source }
      let word := { word with dateLearned := req.dateLearned.getD word.dateLearned }
      let word := match req.partOfSpeech with
        | some v => { word with partOfSpeech := some v }
        | none => word
      let word := match req.exampleSentence with
        | some v => { word with exampleSentence := some v }
        | none => word
      let word := match req.tags with
        | some v => { word with tags := some v }
        | none => word
      repoUpdate st word now

/- ## DictionaryService (internal/services/dictionary.go) -/

/-- models.Phonetic. -/
structure Phonetic where
  text : String
  audio : String
deriving Repr, DecidableEq

/-- models.Definition (the Example field is renamed exampleText: `example`
is reserved in Lean). -/
structure Definition where
  definition : String
  exampleText : String
  synonyms : List String
  antonyms : List String
deriving Repr, DecidableEq

/-- models.Meaning. -/
structure Meaning where
  partOfSpeech : String
  definitions : List Definition
deriving Repr, DecidableEq

/-- models.DictionaryEntry. -/
structure DictionaryEntry where
  word : String
  phonetic : String
  phonetics : List Phonetic
  meanings : List Meaning
  sourceUrl : String
deriving Repr, DecidableEq

/-- models.DictionaryResponse. -/
structure DictionaryResponse where
  word : String
  phonetic : String
  audioURL : String
  meanings : List Meaning
  sourceURLs : List String
deriving Repr, DecidableEq

/-- The phonetic-variant loop of transformResponse: walk the first entry's
phonetics carrying the current phonetic text; on the first non-empty audio,
stop at once (the audio check precedes the text backfill, so the
audio-bearing variant's own text is never considered); otherwise backfill
the phonetic text once, from the first non-empty text seen. Returns
(audio, phonetic). -/
def scanPhonetics : List Phonetic → String → String × String
  | [], ph => ("", ph)
  | p :: ps, ph =>
    if p.audio ≠ "" then (p.audio, ph)
    else scanPhonetics ps (if ph = "" ∧ p.text ≠ "" then p.text else ph)

/-- The source-URL loop of transformResponse: collect every entry's
non-empty attribution URL, first seen wins, order preserved. -/
def collectSourceURLs : List DictionaryEntry → List String → List String
  | [], acc => acc
  | e :: es, acc =>
    if e.sourceUrl ≠ "" ∧ ¬acc.contains e.sourceUrl then
      collectSourceURLs es (acc ++ [e.sourceUrl])
    else collectSourceURLs es acc

/-- DictionaryService.transformResponse: the first entry populates word,
phonetic and meanings; the phonetic-variant scan fills the audio URL and may
backfill the phonetic; source URLs are collected over all entries. The
caller guarantees a non-empty entries slice, hence the Option. -/
def transformResponse : List DictionaryEntry → Option DictionaryResponse
  | [] => none
  | entry :: rest =>
    let scanned := scanPhonetics entry.phonetics entry.phonetic
    some
      { word := entry.word
        phonetic := scanned.2
        audioURL := scanned.1
        meanings := entry.meanings
        sourceURLs := collectSourceURLs (entry :: rest) [] }

/- ## encoding/csv -/

/-- Modelled from encoding/csv reader errors (message text abbreviated to
the error kind, without the position prefix). -/
inductive CsvErr where
  | eof
  | quoteErr
  | bareQuote
  | fieldCount
deriving Repr, DecidableEq

def csvErrMsg : CsvErr → String
  | CsvErr.eof => "EOF"
  | CsvErr.quoteErr => "extraneous or missing \x22 in quoted-field"
  | CsvErr.bareQuote => "bare \x22 in non-quoted field"
  | CsvErr.fieldCount => "wrong number of fields"

/-- Body of a quoted CSV field after its opening quote: a doubled quote is a
literal quote, a single quote closes the field; reaching the end of input
inside the field is a quote error (`none`). Returns the field text and the
input right after the closing quote. -/
def parseQuoted : List Char → Option (List Char × List Char)
  | [] => none
  | c :: rest =>
    if c = '"' then
      match rest with
      | d :: rest' =>
        if d = '"' then (parseQuoted rest').map (fun p => ('"' :: p.1, p.2))
        else some ([], rest)
      | [] => some ([], rest)
    else (parseQuoted rest).map (fun p => (c :: p.1, p.2))

/-- An unquoted CSV field: everything up to the next comma, newline or end
of input (the delimiter is not consumed). -/
def parseUnquoted : List Char → List Char × List Char
  | [] => ([], [])
  | c :: rest =>
    if c = ',' ∨ c = '\n' then ([], c :: rest)
    else
      let p := parseUnquoted rest
      (c :: p.1, p.2)

/-- Drop input through the next newline: the reader's resynchronization
point after a malformed record. -/
def skipLine : List Char → List Char
  | [] => []
  | c :: rest => if c = '\n' then rest else skipLine rest

/-- The comma-separated fields of one record, positioned at the start of a
field. Returns the parse outcome together with the input after the record
(after resynchronization when the record is malformed). The fuel bounds the
number of fields; every caller passes at least the input length plus one,
which a record can never exhaust since each further field consumes a
comma. -/
def parseFields : Nat → List Char → Except CsvErr (List String) × List Char
  | 0, _ => (Except.error CsvErr.quoteErr, [])
  | _ + 1, [] => (Except.ok [""], [])
  | fuel + 1, c :: cs =>
    if c = '"' then
      match parseQuoted cs with
      | none => (Except.error CsvErr.quoteErr, [])
      | some (f, r) =>
        match r with
        | [] => (Except.ok [⟨f⟩], [])
        | d :: r' =>
          if d = ',' then
            let p := parseFields fuel r'
            ((p.1).map (fun fs => (⟨f⟩ : String) :: fs), p.2)
          else if d = '\n' then (Except.ok [⟨f⟩], r')
          else (Except.error CsvErr.quoteErr, skipLine r)
    else
      let u := parseUnquoted (c :: cs)
      if (u.1).contains '"' then (Except.error CsvErr.bareQuote, skipLine u.2)
      else
        match u.2 with
        | [] => (Except.ok [⟨u.1⟩], [])
        | d :: r' =>
          if d = ',' then
            let p := parseFields fuel r'
            ((p.1).map (fun fs => (⟨u.1⟩ : String) :: fs), p.2)
          else (Except.ok [⟨u.1⟩], r')

/-- Leading empty lines are skipped by the reader. -/
def dropBlankLines : List Char → List Char
  | [] => []
  | c :: rest => if c = '\n' then dropBlankLines rest else c :: rest

/-- Modelled from encoding/csv: Reader.Read without the field-count check:
skip blank lines, report EOF on exhausted input, otherwise parse one
record. -/
def readRecord (input : List Char) : Except CsvErr (List String) × List Char :=
  match dropBlankLines input with
  | [] => (Except.error CsvErr.eof, [])
  | l => parseFields (l.length + 1) l

/-- services.ImportResult. -/
structure ImportResult where
  imported : Nat
  skipped : Nat
  errors : List String
deriving Repr, DecidableEq

/-- The column-index map: Go writes `colIndex[lower(trim(col))] = i` for
each header cell in order, so a later duplicate overwrites an earlier one;
lookup therefore scans from the end. -/
def lookupCol (header : List String) (name : String) : Option Nat :=
  ((header.enum.map (fun p => (goLower (goTrim p.2), p.1))).reverse.find?
    (fun p => p.1 = name)).map (fun p => p.2)

def requiredCols : List String := ["word", "source", "date_learned"]

/-- Field access `record[colIndex[name]]` (the index is in range whenever
the reader accepted the record, since accepted records have exactly the
header's field count). -/
def fieldAt (record : List String) (idx : Nat) : String :=
  (record.get? idx).getD ""

/-- One accepted data row of the import loop: trim the three required
fields, skip on a missing one, attach the optional fields, split and trim
the tags, pre-check for a duplicate, then insert; every failure is recorded
against the row's line number. -/
def importRow (header : List String) (record : List String) (st : Store)
    (lineNum : Nat) (now : Nat) (res : ImportResult) : ImportResult × Store :=
  let w := goTrim (fieldAt record ((lookupCol header "word").getD 0))
  let s := goTrim (fieldAt record ((lookupCol header "source").getD 0))
  let d := goTrim (fieldAt record ((lookupCol header "date_learned").getD 0))
  if w = "" ∨ s = "" ∨ d = "" then
    ({ res with skipped := res.skipped + 1,
                errors := res.errors ++ ["line " ++ toString lineNum ++ ": missing required field"] },
     st)
  else
    let pos : Option String :=
      match lookupCol header "part_of_speech" with
      | some idx =>
        if idx < record.length ∧ goTrim (fieldAt record idx) ≠ "" then
          some (goTrim (fieldAt record idx))
        else none
      | none => none
    let exs : Option String :=
      match lookupCol header "example_sentence" with
      | some idx =>
        if idx < record.length ∧ goTrim (fieldAt record idx) ≠ "" then
          some (goTrim (fieldAt record idx))
        else none
      | none => none
    let tags : List String :=
      match lookupCol header "tags" with
      | some idx =>
        if idx < record.length ∧ goTrim (fieldAt record idx) ≠ "" then
          (goSplitChar ',' (goTrim (fieldAt record idx)).data).map goTrim
        else []
      | none => []
    let word : Word :=
      { id := 0, word := w, source := s, dateLearned := d,
        partOfSpeech := pos, exampleSentence := exs,
        tags := some tags, createdAt := 0, updatedAt := 0 }
    match repoGetByWord st w with
    | Except.ok _ =>
      ({ res with skipped := res.skipped + 1,
                  errors := res.errors ++
                    ["line " ++ toString lineNum ++ ": word \x27" ++ w ++ "\x27 already exists"] },
       st)
    | Except.error _ =>
      match repoCreate st word now with
      | Except.error e =>
        ({ res with skipped := res.skipped + 1,
                    errors := res.errors ++ ["line " ++ toString lineNum ++ ": " ++ e] },
         st)
      | Except.ok (_, st') =>
        ({ res with imported := res.imported + 1 }, st')

/-- The row loop of ImportCSV: read records until EOF, counting line numbers
per read; a read error or field-count mismatch skips the row, anything else
goes through `importRow`. Fuel bounds the number of reads (one character of
input per read is always consumed, so the caller's fuel is ample). -/
def importLoop (fuel : Nat) (header : List String) (st : Store)
    (input : List Char) (lineNum : Nat) (now : Nat) (res : ImportResult) :
    ImportResult × Store :=
  match fuel with
  | 0 => (res, st)
  | fuel + 1 =>
    match readRecord input with
    | (Except.error CsvErr.eof, _) => (res, st)
    | (Except.error e, rest) =>
      importLoop fuel header st rest (lineNum + 1) now
        { res with skipped := res.skipped + 1,
                   errors := res.errors ++
                     ["line " ++ toString lineNum ++ ": " ++ csvErrMsg e] }
    | (Except.ok record, rest) =>
      if record.length ≠ header.length then
        importLoop fuel header st rest (lineNum + 1) now
          { res with skipped := res.skipped + 1,
                     errors := res.errors ++
                       ["line " ++ toString lineNum ++ ": " ++ csvErrMsg CsvErr.fieldCount] }
      else
        let (res', st') := importRow header record st lineNum now res
        importLoop fuel header st' rest (lineNum + 1) now res'

/-- WordService.ImportCSV: read and validate the header, then run the row
loop; the only whole-operation failures are an unreadable header and a
missing required column. Returns the (possibly updated) store alongside the
outcome. -/
def importCSV (st : Store) (input : String) (now : Nat) :
    Except String ImportResult × Store :=
  match readRecord input.data with
  | (Except.error e, _) =>
    (Except.error ("failed to read CSV header: " ++ csvErrMsg e), st)
  | (Except.ok header, rest) =>
    match requiredCols.find? (fun c => (lookupCol header c).isNone) with
    | some c => (Except.error ("missing required column: " ++ c), st)
    | none =>
      let (res, st') :=
        importLoop (rest.length + 1) header st rest 2 now
          { imported := 0, skipped := 0, errors := [] }
      (Except.ok res, st')

/- ## CSV export -/

/-- Modelled from encoding/csv: Writer.fieldNeedsQuotes with the default
comma: the empty field is unquoted, the literal field consisting of a lone
backslash and dot is quoted, fields containing the comma, the quote or a
line break are quoted, and so is a field starting with white space. -/
def fieldNeedsQuotes (s : String) : Bool :=
  if s = "" then false
  else if s = "\\." then true
  else if s.data.any (fun c => c = ',' ∨ c = '"' ∨ c = '\r' ∨ c = '\n') then true
  else goIsSpace (s.data.headD ' ')

/-- Double every quote, as the writer does inside a quoted field. -/
def csvEscape : List Char → List Char
  | [] => []
  | '"' :: rest => '"' :: '"' :: csvEscape rest
  | c :: rest => c :: csvEscape rest

def csvWriteField (s : String) : String :=
  if fieldNeedsQuotes s then ⟨'"' :: (csvEscape s.data ++ ['"'])⟩ else s

/-- The field loop of Writer.Write: every field after the first is preceded
by the comma delimiter. -/
def csvWriteFields : List String → String
  | [] => ""
  | [f] => csvWriteField f
  | f :: rest => csvWriteField f ++ "," ++ csvWriteFields rest

/-- Modelled from encoding/csv: Writer.Write with UseCRLF off terminates
each record with a bare newline. -/
def csvWriteRecord (fields : List String) : String :=
  csvWriteFields fields ++ "\n"

def exportHeader : List String :=
  ["word", "source", "date_learned", "part_of_speech", "example_sentence", "tags"]

/-- The CSV record of one word: optional fields serialize as the empty
string, tags as the comma-joined list in a single field. -/
def exportRecord (w : Word) : List String :=
  [w.word, w.source, w.dateLearned, (w.partOfSpeech).getD "",
   (w.exampleSentence).getD "", goJoinChar ',' ((w.tags).getD [])]

/-- WordService.ExportCSV: list every word with the empty filter and write
the fixed header followed by one record per word. -/
def exportCSV (st : Store) : Except String String :=
  match repoList st {} with
  | Except.error e => Except.error ("failed to fetch words: " ++ e)
  | Except.ok words =>
    Except.ok
      ((csvWriteRecord exportHeader) ++
        String.join (words.map (fun w => csvWriteRecord (exportRecord w))))

/- ## Spec-side reformulations and well-formedness predicates -/

/-- The first non-empty audio URL of a phonetic-variant list, as the spec
phrases the audio selection. -/
def firstAudio (ps : List Phonetic) : String :=
  ((ps.find? (fun p => p.audio ≠ "")).map Phonetic.audio).getD ""

/-- The first non-empty phonetic text of a phonetic-variant list. -/
def firstText (ps : List Phonetic) : String :=
  ((ps.find? (fun p => p.text ≠ "")).map Phonetic.text).getD ""

/-- The phonetic text the transform actually produces: the entry's own
phonetic when non-empty, otherwise the first non-empty text among the
variants strictly before the first variant carrying audio. -/
def phoneticResult (e : DictionaryEntry) : String :=
  if e.phonetic ≠ "" then e.phonetic
  else firstText (e.phonetics.takeWhile (fun p => p.audio = ""))

/-- The filter predicates as the spec states them: one independent
conjunct per present field. -/
def filterPred (f : WordFilter) (r : Row) : Bool :=
  (f.search = "" ∨ sqliteLike ("%" ++ f.search ++ "%") r.word) ∧
  (f.source = "" ∨ r.source = f.source) ∧
  (f.tag = "" ∨ sqliteLike ("%\"" ++ f.tag ++ "\"%") r.tagsJson) ∧
  (f.fromDate = "" ∨ strLe f.fromDate r.dateLearned) ∧
  (f.toDate = "" ∨ strLe r.dateLearned f.toDate)

/-- Pagination as the spec states it: drop the offset, then take the
limit, each only when positive. -/
def paginate (f : WordFilter) (l : List Row) : List Row :=
  let l' := if f.offset > 0 then l.drop f.offset.toNat else l
  if f.limit > 0 then l'.take f.limit.toNat else l'

/-- The listing contract as the spec states it: filter, sort newest-first,
paginate last, then decode the rows. -/
def listSpec (st : Store) (f : WordFilter) : Except String (List Word) :=
  scanRows (paginate f (sortRows (st.rows.filter (filterPred f))))

/-- The tuple the round-trip claim compares:
(word, source, dateLearned, partOfSpeech, exampleSentence, tags). -/
abbrev WordTuple :=
  String × String × String × Option String × Option String × List String

def wordTuple (w : Word) : WordTuple :=
  (w.word, w.source, w.dateLearned, w.partOfSpeech, w.exampleSentence, (w.tags).getD [])

def rowTuple (r : Row) : WordTuple :=
  (r.word, r.source, r.dateLearned, r.partOfSpeech, r.exampleSentence,
   ((tagsFromJson r.tagsJson).getD none).getD [])

/-- The decoded tuples of a store, failing if some tags column does not
decode. -/
def storeTuples (st : Store) : Except String (List WordTuple) :=
  (scanRows st.rows).map (List.map wordTuple)

/-- A text field that survives the import pipeline unchanged: non-empty,
with no leading or trailing white space (hence stable under trimming), and
free of carriage returns. -/
def goodField (s : String) : Bool :=
  s ≠ "" ∧ ¬ goIsSpace (s.data.headD ' ') ∧ ¬ goIsSpace (s.data.getLastD ' ') ∧
  ¬ s.data.contains '\r'

def goodOpt : Option String → Bool
  | none => true
  | some s => goodField s

/-- A tag that the comma-joined export can reproduce: a good field with no
embedded comma. -/
def goodTag (t : String) : Bool := goodField t ∧ ¬ t.data.contains ','

def goodTags (r : Row) : Bool :=
  match tagsFromJson r.tagsJson with
  | some (some ts) => ts.all goodTag
  | _ => false

def goodRow (r : Row) : Bool :=
  goodField r.word ∧ goodField r.source ∧ goodField r.dateLearned ∧
  goodOpt r.partOfSpeech ∧ goodOpt r.exampleSentence ∧ goodTags r

def goodWordTags : Option (List String) → Bool
  | some ts => ts.all goodTag
  | none => false

def goodWord (w : Word) : Bool :=
  goodField w.word ∧ goodField w.source ∧ goodField w.dateLearned ∧
  goodOpt w.partOfSpeech ∧ goodOpt w.exampleSentence ∧ goodWordTags w.tags

/-- Store well-formedness for the round-trip: pairwise distinct word texts
(the UNIQUE constraint) and well-behaved fields in every row. -/
def wellFormedStore (st : Store) : Prop :=
  (st.rows.map Row.word).Nodup ∧ ∀ r ∈ st.rows, goodRow r = true

instance : DecidablePred wellFormedStore := fun st => by
  unfold wellFormedStore; infer_instance

/-- The row the import inserts for a reconstructed word. -/
def rowFor (n now : Nat) (w : Word) : Row :=
  { id := n, word := w.word, source := w.source, dateLearned := w.dateLearned,
    partOfSpeech := w.partOfSpeech, exampleSentence := w.exampleSentence,
    tagsJson := tagsToJson w.tags, createdAt := now, updatedAt := now }

/-- The rows a clean sequential import of the given words appends. -/
def insertedRows (n now : Nat) : List Word → List Row
  | [] => []
  | w :: ws => rowFor n now w :: insertedRows (n + 1) now ws

/-- A tags column written by the service layer: the JSON encoding of an
actual (non-nil) list. -/
def rowTagsOk (r : Row) : Prop := ∃ ts, r.tagsJson = tagsToJson (some ts)

/-- The import failures that abort the whole operation, as the code
determines them: an unreadable header, or a readable header missing a
required column. -/
def headerProblem (input : String) : Bool :=
  match readRecord input.data with
  | (Except.error _, _) => true
  | (Except.ok header, _) => requiredCols.any (fun c => (lookupCol header c).isNone)

/- ## Lemmas: JSON tag encoding round-trip -/

theorem hexVal_digitChar {n : Nat} (h : n < 16) : hexVal (Nat.digitChar n) = some n := by
  interval_cases n <;> decide

theorem goEscapeList_length_ge : ∀ s : List Char, s.length ≤ (goEscapeList s).length := by
  intro s
  induction s with
  | nil => simp [goEscapeList]
  | cons c cs ih =>
    have hc : 1 ≤ (goEscapeChar c).length := by
      unfold goEscapeChar
      repeat' split
      all_goals simp
    simp only [goEscapeList, List.length_append, List.length_cons]
    omega

theorem parseJsonString_unicode (fuel : Nat) (h1 h2 h3 h4 : Char) (a b c' d : Nat)
    (t : List Char) (ha : hexVal h1 = some a) (hb : hexVal h2 = some b)
    (hc : hexVal h3 = some c') (hd : hexVal h4 = some d) :
    parseJsonString (fuel + 1) ('\\' :: 'u' :: h1 :: h2 :: h3 :: h4 :: t) =
      (parseJsonString fuel t).map
        (fun p => (Char.ofNat (((a * 16 + b) * 16 + c') * 16 + d) :: p.1, p.2)) := by
  show (match hexVal h1, hexVal h2, hexVal h3, hexVal h4 with
    | some a, some b, some c', some d =>
      (parseJsonString fuel t).map
        (fun p : List Char × List Char =>
          (Char.ofNat (((a * 16 + b) * 16 + c') * 16 + d) :: p.1, p.2))
    | _, _, _, _ => none) =
    (parseJsonString fuel t).map
      (fun p : List Char × List Char =>
        (Char.ofNat (((a * 16 + b) * 16 + c') * 16 + d) :: p.1, p.2))
  rw [ha, hb, hc, hd]

theorem parseJsonString_escape : ∀ (s : List Char) (fuel : Nat) (rest : List Char),
    s.length + 1 ≤ fuel →
    parseJsonString fuel (goEscapeList s ++ ('"' :: rest)) = some (s, rest) := by
  intro s
  induction s with
  | nil =>
    intro fuel rest hf
    match fuel, hf with
    | fuel + 1, _ => simp [goEscapeList, parseJsonString]
  | cons c cs ih =>
    intro fuel rest hf
    match fuel, hf with
    | fuel + 1, hf =>
      have hfc : cs.length + 1 ≤ fuel := by
        simp only [List.length_cons] at hf; omega
      have ihf := ih fuel rest hfc
      have hstep : goEscapeList (c :: cs) ++ ('"' :: rest) =
          goEscapeChar c ++ (goEscapeList cs ++ ('"' :: rest)) := by
        simp [goEscapeList]
      rw [hstep]
      by_cases h1 : c = '"'
      · subst h1; simp [goEscapeChar, parseJsonString, unescChar, ihf]
      by_cases h2 : c = '\\'
      · subst h2; simp [goEscapeChar, parseJsonString, unescChar, ihf]
      by_cases h3 : c = '\n'
      · subst h3; simp [goEscapeChar, parseJsonString, unescChar, ihf]
      by_cases h4 : c = '\r'
      · subst h4; simp [goEscapeChar, parseJsonString, unescChar, ihf]
      by_cases h5 : c = '\t'
      · subst h5; simp [goEscapeChar, parseJsonString, unescChar, ihf]
      by_cases h6 : c = '<'
      · subst h6
        rw [show goEscapeChar '<' = ['\\', 'u', '0', '0', '3', 'c'] from rfl]
        rw [List.cons_append, List.cons_append, List.cons_append, List.cons_append,
          List.cons_append, List.cons_append, List.nil_append,
          parseJsonString_unicode fuel '0' '0' '3' 'c' 0 0 3 12 _ (by decide) (by decide)
            (by decide) (by decide), ihf]
        rfl
      by_cases h7 : c = '>'
      · subst h7
        rw [show goEscapeChar '>' = ['\\', 'u', '0', '0', '3', 'e'] from rfl]
        rw [List.cons_append, List.cons_append, List.cons_append, List.cons_append,
          List.cons_append, List.cons_append, List.nil_append,
          parseJsonString_unicode fuel '0' '0' '3' 'e' 0 0 3 14 _ (by decide) (by decide)
            (by decide) (by decide), ihf]
        rfl
      by_cases h8 : c = '&'
      · subst h8
        rw [show goEscapeChar '&' = ['\\', 'u', '0', '0', '2', '6'] from rfl]
        rw [List.cons_append, List.cons_append, List.cons_append, List.cons_append,
          List.cons_append, List.cons_append, List.nil_append,
          parseJsonString_unicode fuel '0' '0' '2' '6' 0 0 2 6 _ (by decide) (by decide)
            (by decide) (by decide), ihf]
        rfl
      by_cases h9 : c.toNat < 0x20
      · have hesc : goEscapeChar c =
            ['\\', 'u', '0', '0', Nat.digitChar (c.toNat / 16), Nat.digitChar (c.toNat % 16)] := by
          simp [goEscapeChar, h1, h2, h3, h4, h5, h6, h7, h8, h9]
        rw [hesc]
        have hd1 : hexVal (Nat.digitChar (c.toNat / 16)) = some (c.toNat / 16) :=
          hexVal_digitChar (by omega)
        have hd2 : hexVal (Nat.digitChar (c.toNat % 16)) = some (c.toNat % 16) :=
          hexVal_digitChar (Nat.mod_lt _ (by omega))
        rw [List.cons_append, List.cons_append, List.cons_append, List.cons_append,
          List.cons_append, List.cons_append, List.nil_append,
          parseJsonString_unicode fuel '0' '0' _ _ 0 0 (c.toNat / 16) (c.toNat % 16) _
            (by decide) (by decide) hd1 hd2, ihf]
        have hval : ((0 * 16 + 0) * 16 + c.toNat / 16) * 16 + c.toNat % 16 = c.toNat := by
          omega
        rw [hval, Char.ofNat_toNat]
        rfl
      · have hesc : goEscapeChar c = [c] := by
          simp [goEscapeChar, h1, h2, h3, h4, h5, h6, h7, h8, h9]
        rw [hesc]
        simp [parseJsonString, h1, h2, ihf]

theorem encodeTagsElems_length_ge : ∀ ts : List String, ts.length ≤ (encodeTagsElems ts).length := by
  intro ts
  induction ts with
  | nil => simp [encodeTagsElems]
  | cons t ts ih =>
    cases ts with
    | nil => simp [encodeTagsElems, goQuote]
    | cons t2 ts2 =>
      rw [show encodeTagsElems (t :: t2 :: ts2) =
        goQuote t ++ (',' :: encodeTagsElems (t2 :: ts2)) from rfl]
      simp only [List.length_cons] at ih
      simp only [goQuote, List.length_append, List.length_cons]
      omega

theorem string_mk_data (s : String) : (⟨s.data⟩ : String) = s := rfl

theorem parseJsonString_escape_ample (t : String) (tail : List Char) :
    parseJsonString ((goEscapeList t.data ++ ('"' :: tail)).length + 1)
      (goEscapeList t.data ++ ('"' :: tail)) = some (t.data, tail) := by
  apply parseJsonString_escape
  have := goEscapeList_length_ge t.data
  simp only [List.length_append, List.length_cons]
  omega

theorem parseTagsElems_encode : ∀ (ts : List String) (fuel : Nat) (rest : List Char),
    ts.length + 1 ≤ fuel →
    parseTagsElems fuel (encodeTagsElems ts ++ (']' :: rest)) = some (ts, rest) := by
  intro ts
  induction ts with
  | nil =>
    intro fuel rest hf
    match fuel, hf with
    | fuel + 1, _ => simp [encodeTagsElems, parseTagsElems]
  | cons t ts ih =>
    intro fuel rest hf
    match fuel, hf with
    | fuel + 1, hf =>
      cases ts with
      | nil =>
        set R := goEscapeList t.data ++ ('"' :: (']' :: rest)) with hR
        have heq : encodeTagsElems [t] ++ (']' :: rest) = '"' :: R := by
          rw [hR]; simp [encodeTagsElems, goQuote]
        rw [heq]
        have hps : parseJsonString (R.length + 1) R = some (t.data, ']' :: rest) := by
          rw [hR]; exact parseJsonString_escape_ample t (']' :: rest)
        simp [parseTagsElems, hps, string_mk_data]
      | cons t2 ts2 =>
        set R := goEscapeList t.data ++
          ('"' :: (',' :: (encodeTagsElems (t2 :: ts2) ++ (']' :: rest)))) with hR
        have heq : encodeTagsElems (t :: t2 :: ts2) ++ (']' :: rest) = '"' :: R := by
          rw [hR]; simp [encodeTagsElems, goQuote]
        rw [heq]
        have hrec := ih fuel rest (by
          simp only [List.length_cons] at hf ⊢; omega)
        have hps : parseJsonString (R.length + 1) R =
            some (t.data, ',' :: (encodeTagsElems (t2 :: ts2) ++ (']' :: rest))) := by
          rw [hR]
          exact parseJsonString_escape_ample t
            (',' :: (encodeTagsElems (t2 :: ts2) ++ (']' :: rest)))
        simp [parseTagsElems, hps, hrec, string_mk_data]

theorem tagsToJson_ne_null (ts : List String) : tagsToJson (some ts) ≠ "null" := by
  intro h
  have := congrArg String.data h
  simp [tagsToJson] at this

theorem tagsFromJson_tagsToJson (ts : List String) :
    tagsFromJson (tagsToJson (some ts)) = some (some ts) := by
  have hne := tagsToJson_ne_null ts
  unfold tagsFromJson
  rw [if_neg hne]
  have hlen : ts.length + 1 ≤ (encodeTagsElems ts ++ [']']).length := by
    have := encodeTagsElems_length_ge ts
    simp only [List.length_append, List.length_cons, List.length_nil]
    omega
  have hp : parseTagsElems (encodeTagsElems ts ++ [']']).length
      (encodeTagsElems ts ++ (']' :: ([] : List Char))) = some (ts, []) :=
    parseTagsElems_encode ts _ [] hlen
  show (match parseTagsElems (encodeTagsElems ts ++ [']']).length
      (encodeTagsElems ts ++ [']']) with
    | some (l, []) => some (some l)
    | _ => none) = some (some ts)
  rw [hp]

theorem scanWord_ok {r : Row} {ts : List String} (h : r.tagsJson = tagsToJson (some ts)) :
    scanWord r = Except.ok
      { id := r.id, word := r.word, source := r.source,
        dateLearned := r.dateLearned, partOfSpeech := r.partOfSpeech,
        exampleSentence := r.exampleSentence, tags := some ts,
        createdAt := r.createdAt, updatedAt := r.updatedAt } := by
  unfold scanWord
  rw [h, tagsFromJson_tagsToJson]

/- ## Claim C1: tag filtering -/

def c1RowAB : Row :=
  { id := 1, word := "w", source := "s", dateLearned := "2024-01-01",
    partOfSpeech := none, exampleSentence := none,
    tagsJson := tagsToJson (some ["a", "b"]), createdAt := 0, updatedAt := 0 }

def c1StoreAB : Store := { rows := [c1RowAB], nextId := 2 }

def c1RowLit : Row :=
  { id := 1, word := "w", source := "s", dateLearned := "2024-01-01",
    partOfSpeech := none, exampleSentence := none,
    tagsJson := tagsToJson (some ["literature"]), createdAt := 0, updatedAt := 0 }

def c1StoreLit : Store := { rows := [c1RowLit], nextId := 2 }

/-- C1: the tag filter predicate of buildListQuery is a quoted-pattern LIKE
test against the serialized tags column, not exact array membership. The
quoting does make the specific lit/literature example behave (count 0), but
membership equivalence fails: the filter value consisting of the five
characters a, quote, comma, quote, b selects a word whose tag list is
exactly [a, b], although that value is not an element of the list; LIKE is
also ASCII case-insensitive, so LIT matches a stored tag lit. -/
theorem C1_tag_filter_eval :
    repoCount c1StoreLit { tag := "lit" } = Except.ok 0 ∧
    repoCount c1StoreAB { tag := "a\",\"b" } = Except.ok 1 ∧
    (repoList c1StoreAB { tag := "a\",\"b" }).map (List.map Word.word) =
      Except.ok ["w"] ∧
    ¬ (("a\",\"b" : String) ∈ (["a", "b"] : List String)) ∧
    repoCount c1StoreAB { tag := "LIT" } = Except.ok 0 ∧
    repoCount c1StoreLit { tag := "LITERATURE" } = Except.ok 1 ∧
    ¬ (("LITERATURE" : String) ∈ (["literature"] : List String)) :=
  ⟨rfl, rfl, rfl, by decide, rfl, rfl, by decide⟩

/- ## Claim C4: dictionary response normalization -/

theorem scanPhonetics_spec : ∀ (ps : List Phonetic) (ph : String),
    scanPhonetics ps ph =
      (firstAudio ps,
       if ph ≠ "" then ph else firstText (ps.takeWhile (fun p => p.audio = ""))) := by
  intro ps
  induction ps with
  | nil =>
    intro ph
    by_cases h : ph = "" <;> simp [scanPhonetics, firstAudio, firstText, h]
  | cons p ps ih =>
    intro ph
    by_cases ha : p.audio = ""
    · have h1 : firstAudio (p :: ps) = firstAudio ps := by
        simp [firstAudio, List.find?_cons, ha]
      have h2 : (p :: ps).takeWhile (fun q => q.audio = "") =
          p :: ps.takeWhile (fun q => q.audio = "") := by
        simp [List.takeWhile_cons, ha]
      by_cases hph : ph = ""
      · subst hph
        by_cases ht : p.text = ""
        · simp [scanPhonetics, ha, ht, ih, h1, h2, firstText, List.find?_cons]
        · simp [scanPhonetics, ha, ht, ih, h1, h2, firstText, List.find?_cons]
      · simp [scanPhonetics, ha, hph, ih, h1, h2]
    · have h1 : firstAudio (p :: ps) = p.audio := by
        simp [firstAudio, List.find?_cons, ha]
      have h2 : (p :: ps).takeWhile (fun q => q.audio = "") = [] := by
        simp [List.takeWhile_cons, ha]
      by_cases hph : ph = ""
      · simp [scanPhonetics, ha, hph, h1, h2, firstText]
      · simp [scanPhonetics, ha, hph, h1, h2]

def c4Entry : DictionaryEntry :=
  { word := "w", phonetic := "",
    phonetics := [{ text := "", audio := "a.mp3" }, { text := "/x/", audio := "" }],
    meanings := [], sourceUrl := "" }

/-- C4 counterexample: an entry whose top phonetic is empty and whose second
phonetic-variant has the non-empty text /x/. The claim requires the
normalized phonetic to be /x/ for every audio content of the variants, but
when the first variant carries audio, the loop breaks before any backfill
and the phonetic stays empty. -/
theorem C4_phonetic_backfill_counterexample :
    c4Entry.phonetic = "" ∧
    (c4Entry.phonetics.map Phonetic.text).get? 1 = some "/x/" ∧
    (transformResponse [c4Entry]).map DictionaryResponse.phonetic = some "" ∧
    (transformResponse [c4Entry]).map DictionaryResponse.audioURL = some "a.mp3" ∧
    (transformResponse [c4Entry]).map DictionaryResponse.phonetic ≠ some "/x/" := by
  refine ⟨rfl, rfl, rfl, rfl, ?_⟩
  rw [show (transformResponse [c4Entry]).map DictionaryResponse.phonetic = some "" from rfl]
  intro h
  have := congrArg (fun o => (Option.getD o "?").data) h
  simp at this

/-- C4 amended: the audio URL is the first non-empty audio among the first
entry phonetic-variants, and the phonetic is the top-level text when
non-empty, otherwise the first non-empty text among the variants strictly
before the first audio-bearing variant — the scan stops at the audio, so
audio and phonetic selection are not independent. -/
theorem C4_transform_amended (e : DictionaryEntry) (rest : List DictionaryEntry) :
    (transformResponse (e :: rest)).map DictionaryResponse.audioURL =
      some (firstAudio e.phonetics) ∧
    (transformResponse (e :: rest)).map DictionaryResponse.phonetic =
      some (phoneticResult e) := by
  constructor
  · simp [transformResponse, scanPhonetics_spec]
  · simp [transformResponse, scanPhonetics_spec, phoneticResult]

/- ## Claim C9: update semantics -/

def c9Word : Word :=
  { id := 5, word := "w", source := "s", dateLearned := "2024-01-01",
    partOfSpeech := none, exampleSentence := none, tags := some [],
    createdAt := 0, updatedAt := 0 }

/-- C9 counterexample: the repository Update of an id that does not exist
reports success (the affected row count is never inspected), so WordStore
update does not fail with NotFoundError on a missing id. -/
theorem C9_update_missing_id_counterexample :
    repoUpdate emptyStore c9Word 5 =
      Except.ok ({ c9Word with updatedAt := 5 }, emptyStore) ∧
    ∀ e, repoUpdate emptyStore c9Word 5 ≠ Except.error e := by
  refine ⟨rfl, ?_⟩
  intro e h
  rw [show repoUpdate emptyStore c9Word 5 =
    Except.ok ({ c9Word with updatedAt := 5 }, emptyStore) from rfl] at h
  exact Except.noConfusion h

theorem map_eq_self_of_all {α : Type} (l : List α) (f : α → α)
    (h : ∀ x ∈ l, f x = x) : l.map f = l := by
  induction l with
  | nil => rfl
  | cons a l ih =>
    simp only [List.map_cons]
    rw [h a (List.mem_cons_self a l), ih (fun x hx => h x (List.mem_cons_of_mem a hx))]

/-- C9 amended: the not-found failure of the update path lives in the
service layer (its GetByID load), not in the storage layer. The repository
update of a missing id succeeds and leaves the store unchanged; the service
update of a missing id fails with the no-rows sentinel; and a successful
update rewrites the matching row with the new field values, a refreshed
updatedAt and an untouched createdAt. -/
theorem C9_update_amended (st : Store) (w : Word) (now : Nat) :
    ((st.rows.any (fun r => r.id = w.id)) = false →
      repoUpdate st w now = Except.ok ({ w with updatedAt := now }, st)) ∧
    (∀ id req, st.rows.find? (fun r => r.id = id) = none →
      serviceUpdate st id req now = Except.error errNoRows) ∧
    (∀ r ∈ st.rows, r.id = w.id →
      ∃ st', repoUpdate st w now = Except.ok ({ w with updatedAt := now }, st') ∧
        { r with word := w.word, source := w.source, dateLearned := w.dateLearned,
                 partOfSpeech := w.partOfSpeech, exampleSentence := w.exampleSentence,
                 tagsJson := tagsToJson w.tags, updatedAt := now } ∈ st'.rows) := by
  refine ⟨?_, ?_, ?_⟩
  · intro h
    unfold repoUpdate
    have hall : ∀ r ∈ st.rows, ¬ (r.id = w.id) := by
      intro r hr
      have := List.any_eq_false.mp (by exact_mod_cast h) r hr
      simpa using this
    have hmap : st.rows.map (fun r =>
        if r.id = w.id then
          { r with word := w.word, source := w.source, dateLearned := w.dateLearned,
                   partOfSpeech := w.partOfSpeech, exampleSentence := w.exampleSentence,
                   tagsJson := tagsToJson w.tags, updatedAt := now }
        else r) = st.rows := by
      apply map_eq_self_of_all
      intro r hr
      rw [if_neg (hall r hr)]
    rw [hmap]
  · intro id req h
    unfold serviceUpdate repoGetByID
    rw [h]
  · intro r hr hid
    refine ⟨_, rfl, List.mem_map.2 ⟨r, hr, ?_⟩⟩
    simp [hid]

/-- C9 amended, witnessed at a one-row store and a missing id. -/
theorem C9_update_amended_witness :
    repoUpdate emptyStore c9Word 5 = Except.ok ({ c9Word with updatedAt := 5 }, emptyStore) ∧
    serviceUpdate emptyStore 5
      { word := none, source := none, dateLearned := none,
        partOfSpeech := none, exampleSentence := none, tags := none } 5 =
      Except.error errNoRows ∧
    ∃ st', repoUpdate c1StoreAB { c9Word with id := 1 } 5 =
        Except.ok ({ c9Word with id := 1, updatedAt := 5 }, st') ∧
      { c1RowAB with word := c9Word.word, source := c9Word.source,
                     dateLearned := c9Word.dateLearned,
                     partOfSpeech := c9Word.partOfSpeech,
                     exampleSentence := c9Word.exampleSentence,
                     tagsJson := tagsToJson c9Word.tags, updatedAt := 5 } ∈ st'.rows := by
  refine ⟨?_, ?_, ?_⟩
  · exact (C9_update_amended emptyStore c9Word 5).1 rfl
  · exact (C9_update_amended emptyStore c9Word 5).2.1 5 _ rfl
  · exact (C9_update_amended c1StoreAB { c9Word with id := 1 } 5).2.2
      c1RowAB (List.mem_cons_self _ _) rfl

/- ## Claim C3: conflict errors -/

def c3Store : Store :=
  { rows := [{ id := 1, word := "ephemeral", source := "Book",
               dateLearned := "2024-01-15", partOfSpeech := none,
               exampleSentence := none, tagsJson := "[]",
               createdAt := 3, updatedAt := 3 }],
    nextId := 2 }

def c3Req : CreateWordRequest :=
  { word := "ephemeral", source := "Other", dateLearned := "2024-02-02",
    partOfSpeech := none, exampleSentence := none, tags := none }

def c3Word : Word :=
  { id := 0, word := "ephemeral", source := "Other", dateLearned := "2024-02-02",
    partOfSpeech := none, exampleSentence := none, tags := some [],
    createdAt := 0, updatedAt := 0 }

/-- C3 counterexample: creating a word that already exists produces two
different plain error values depending on which path detects the duplicate
— the service pre-check message and the wrapped insert-time constraint
message — so there is no single distinguishable ConflictError kind. -/
theorem C3_conflict_error_counterexample :
    serviceCreate c3Store c3Req 4 =
      Except.error "word \x27ephemeral\x27 already exists" ∧
    repoCreate c3Store c3Word 4 =
      Except.error "failed to insert word: UNIQUE constraint failed: words.word" ∧
    ("word \x27ephemeral\x27 already exists" : String) ≠
      "failed to insert word: UNIQUE constraint failed: words.word" :=
  ⟨rfl, rfl, by decide⟩

/-- C3 amended: both detection paths do reject a duplicate create, and the
insert-time constraint rejects it even when the pre-check is bypassed, but
the two paths surface two different untyped error strings rather than one
shared ConflictError kind. -/
theorem C3_conflict_error_amended (st : Store) (req : CreateWordRequest)
    (now now2 : Nat) (w2 : Word)
    (hok : (repoGetByWord st req.word).isOk = true)
    (hw : req.word ≠ "") (hs : req.source ≠ "") (hd : req.dateLearned ≠ "")
    (hw2 : w2.word = req.word) :
    serviceCreate st req now =
      Except.error ("word \x27" ++ req.word ++ "\x27 already exists") ∧
    repoCreate st w2 now2 =
      Except.error ("failed to insert word: " ++ uniqueViolation) ∧
    ("word \x27" ++ req.word ++ "\x27 already exists") ≠
      ("failed to insert word: " ++ uniqueViolation) := by
  have hfind : ∃ r, st.rows.find? (fun r => r.word = req.word) = some r := by
    unfold repoGetByWord at hok
    cases hf : st.rows.find? (fun r => r.word = req.word) with
    | none => rw [hf] at hok; simp [Except.isOk, Except.toBool] at hok
    | some r => exact ⟨r, rfl⟩
  have hany : st.rows.any (fun r => r.word = w2.word) = true := by
    obtain ⟨r, hf⟩ := hfind
    have hmem := List.mem_of_find?_eq_some hf
    have hpred := List.find?_some hf
    rw [List.any_eq_true]
    exact ⟨r, hmem, by rw [hw2]; exact hpred⟩
  refine ⟨?_, ?_, ?_⟩
  · unfold serviceCreate
    rw [if_neg hw, if_neg hs, if_neg hd]
    obtain ⟨r, hf⟩ := hfind
    have hscanok : ∃ w', scanWord r = Except.ok w' := by
      unfold repoGetByWord at hok
      rw [hf] at hok
      change (scanWord r).isOk = true at hok
      cases hscan : scanWord r with
      | error e => rw [hscan] at hok; simp [Except.isOk, Except.toBool] at hok
      | ok w' => exact ⟨w', rfl⟩
    obtain ⟨w', hscan⟩ := hscanok
    have hgw : repoGetByWord st req.word = Except.ok w' := by
      unfold repoGetByWord
      rw [hf]
      exact hscan
    rw [hgw]
  · unfold repoCreate
    rw [if_pos hany]
  · intro h
    have := congrArg String.data h
    rw [String.data_append, String.data_append] at this
    simp at this

/-- C3 amended, witnessed at the concrete duplicate store. -/
theorem C3_conflict_error_amended_witness :
    serviceCreate c3Store c3Req 4 =
      Except.error ("word \x27" ++ c3Req.word ++ "\x27 already exists") ∧
    repoCreate c3Store c3Word 4 =
      Except.error ("failed to insert word: " ++ uniqueViolation) := by
  have h := C3_conflict_error_amended c3Store c3Req 4 4 c3Word rfl
    (by decide) (by decide) (by decide) rfl
  exact ⟨h.1, h.2.1⟩

/- ## Claims C6 and C7: listing, ordering, pagination, empty filter -/

theorem buildListQuery_countOnly (f : WordFilter) (b : Bool) :
    (buildListQuery f b).countOnly = b := rfl

theorem buildListQuery_limit (f : WordFilter) :
    (buildListQuery f false).limit = if f.limit > 0 then some f.limit else none := by
  simp [buildListQuery]

theorem buildListQuery_offset (f : WordFilter) :
    (buildListQuery f false).offset = if f.offset > 0 then some f.offset else none := by
  simp [buildListQuery]

theorem conds_all_filterPred (f : WordFilter) (b : Bool) (r : Row) :
    (buildListQuery f b).conds.all (fun c => condHolds c r) = filterPred f r := by
  show (((if f.search ≠ "" then [Cond.wordLike ("%" ++ f.search ++ "%")] else []) ++
    (if f.source ≠ "" then [Cond.sourceEq f.source] else []) ++
    (if f.tag ≠ "" then [Cond.tagsLike ("%\"" ++ f.tag ++ "\"%")] else []) ++
    (if f.fromDate ≠ "" then [Cond.dateGe f.fromDate] else []) ++
    (if f.toDate ≠ "" then [Cond.dateLe f.toDate] else [])).all
      (fun c => condHolds c r)) = filterPred f r
  by_cases h1 : f.search = "" <;> by_cases h2 : f.source = "" <;>
    by_cases h3 : f.tag = "" <;> by_cases h4 : f.fromDate = "" <;>
      by_cases h5 : f.toDate = "" <;>
        simp [h1, h2, h3, h4, h5, filterPred, condHolds, Bool.and_assoc]

theorem scanRows_ok_length :
    ∀ (l : List Row) (ws : List Word), scanRows l = Except.ok ws → ws.length = l.length := by
  intro l
  induction l with
  | nil =>
    intro ws h
    simp only [scanRows] at h
    cases h
    rfl
  | cons r rs ih =>
    intro ws h
    simp only [scanRows] at h
    cases hf : scanWord r with
    | error e => rw [hf] at h; cases h
    | ok w =>
      rw [hf] at h
      cases hm : scanRows rs with
      | error e => rw [hm] at h; cases h
      | ok bs =>
        rw [hm] at h
        cases h
        simp [ih bs hm]

theorem scanRows_ok_of_forall (g : Row → Word) :
    ∀ l : List Row, (∀ r ∈ l, scanWord r = Except.ok (g r)) →
      scanRows l = Except.ok (l.map g) := by
  intro l
  induction l with
  | nil => intro _; rfl
  | cons r rs ih =>
    intro h
    simp only [scanRows]
    rw [h r (List.mem_cons_self r rs), ih (fun x hx => h x (List.mem_cons_of_mem r hx))]
    rfl

def offsetSyntaxError : String := "near \x22OFFSET\x22: syntax error"

/-- C7 amended: every filter field is independently optional in the query
construction and the empty filter matches everything — list returns all
stored rows in the defined order and count returns their number — but a
filter that sets only a positive offset and no positive limit renders an
OFFSET clause without a LIMIT clause, which the engine rejects, so list
fails instead of skipping rows. -/
theorem C7_empty_filter_amended (st : Store) :
    repoList st {} = scanRows (sortRows st.rows) ∧
    repoCount st {} = Except.ok st.rows.length ∧
    (∀ ws, repoList st {} = Except.ok ws → ws.length = st.rows.length) ∧
    (∀ k : Nat, repoList st { offset := (k : Int) + 1 } =
      Except.error ("failed to query words: " ++ offsetSyntaxError)) := by
  have hlist : repoList st {} = scanRows (sortRows st.rows) := by
    unfold repoList sqlExecList
    simp [buildListQuery, List.filter_true, offsetSyntaxError]
  refine ⟨hlist, ?_, ?_, ?_⟩
  · unfold repoCount sqlExecCount
    simp [buildListQuery, List.filter_true]
  · intro ws h
    rw [hlist] at h
    have := scanRows_ok_length (sortRows st.rows) ws h
    rw [this]
    exact List.length_insertionSort _ _
  · intro k
    unfold repoList sqlExecList
    have hoff : ((0 : Int) < (k : Int) + 1) := by omega
    simp [buildListQuery, hoff, offsetSyntaxError]

def c7Row : Row :=
  { id := 1, word := "solo", source := "s", dateLearned := "2024-01-01",
    partOfSpeech := none, exampleSentence := none, tagsJson := "[]",
    createdAt := 0, updatedAt := 0 }

def c7Store : Store := { rows := [c7Row], nextId := 2 }

/-- C7 amended, witnessed on a one-row store: the empty filter lists the
row and counts one; an offset-only filter fails with the OFFSET syntax
error. -/
theorem C7_empty_filter_amended_witness :
    repoCount c7Store {} = Except.ok c7Store.rows.length ∧
    (∀ ws, repoList c7Store {} = Except.ok ws → ws.length = c7Store.rows.length) ∧
    repoList c7Store { offset := (0 : Int) + 1 } =
      Except.error ("failed to query words: " ++ offsetSyntaxError) := by
  refine ⟨(C7_empty_filter_amended c7Store).2.1, (C7_empty_filter_amended c7Store).2.2.1,
    (C7_empty_filter_amended c7Store).2.2.2 0⟩

/-- C7 counterexample: a filter that sets only offset is not served — the
built query text ends in an OFFSET clause with no LIMIT clause and the
engine rejects it, while the claim expects the sorted words after skipping
the first offset records (here the empty list of the one-row store after
skipping one). -/
theorem C7_offset_only_counterexample :
    repoList c7Store { offset := 1 } =
      Except.error ("failed to query words: " ++ offsetSyntaxError) ∧
    renderQuery (buildListQuery { offset := 1 } false) =
      "SELECT id, word, source, date_learned, part_of_speech, example_sentence, tags, created_at, updated_at FROM words ORDER BY date_learned DESC, id DESC OFFSET 1" ∧
    listSpec c7Store { offset := 1 } = Except.ok [] :=
  ⟨rfl, rfl, rfl⟩

def c6Rows : List Row :=
  [{ id := 1, word := "a", source := "s", dateLearned := "2024-01-15",
     partOfSpeech := none, exampleSentence := none, tagsJson := "[]",
     createdAt := 0, updatedAt := 0 },
   { id := 2, word := "b", source := "s", dateLearned := "2024-02-20",
     partOfSpeech := none, exampleSentence := none, tagsJson := "[]",
     createdAt := 0, updatedAt := 0 },
   { id := 3, word := "c", source := "s", dateLearned := "2024-03-10",
     partOfSpeech := none, exampleSentence := none, tagsJson := "[]",
     createdAt := 0, updatedAt := 0 }]

def c6Store : Store := { rows := c6Rows, nextId := 4 }

/-- C6 amended: whenever limit is positive or offset is not (so the
generated limit clause is well-formed), list equals the specified
filter-sort-paginate pipeline — newest-first by dateLearned with id
descending tie-break, pagination applied last; and over the concrete
three-word store, limit 2 offset 2 returns exactly the record the first
page excludes. -/
theorem C6_list_order_amended (st : Store) (f : WordFilter)
    (h : 0 < f.limit ∨ f.offset ≤ 0) :
    repoList st f = listSpec st f ∧
    (repoList c6Store { limit := 2, offset := 2 }).map (List.map Word.word) =
      Except.ok ["a"] ∧
    (repoList c6Store { limit := 2 }).map (List.map Word.word) =
      Except.ok ["c", "b"] := by
  refine ⟨?_, rfl, rfl⟩
  unfold repoList listSpec sqlExecList
  have hconds : ∀ r : Row,
      ((buildListQuery f false).conds.all (fun c => condHolds c r)) = filterPred f r :=
    conds_all_filterPred f false
  have hfilter : st.rows.filter
      (fun r => (buildListQuery f false).conds.all (fun c => condHolds c r)) =
      st.rows.filter (filterPred f) := by
    apply List.filter_congr
    intro r _
    exact hconds r
  by_cases hl : 0 < f.limit <;> by_cases ho : 0 < f.offset
  · simp [buildListQuery_limit, buildListQuery_offset, hl, ho, hfilter, paginate,
      not_lt.mpr, Option.isSome, Option.isNone]
  · simp [buildListQuery_limit, buildListQuery_offset, hl, ho, hfilter, paginate,
      not_lt.mpr (by omega : f.offset ≤ 0)]
  · exact absurd h (by simp [hl, not_lt.mpr (by omega : f.offset ≤ 0), ho, not_le.mpr ho])
  · simp [buildListQuery_limit, buildListQuery_offset, hl, ho, hfilter, paginate,
      not_lt.mpr (by omega : f.limit ≤ 0), not_lt.mpr (by omega : f.offset ≤ 0)]

/-- C6 amended, witnessed at the pagination filter of the claim. -/
theorem C6_list_order_amended_witness :
    repoList c6Store { limit := 2, offset := 2 } =
      listSpec c6Store { limit := 2, offset := 2 } :=
  (C6_list_order_amended c6Store { limit := 2, offset := 2 } (Or.inl (by decide))).1

/-- C6 counterexample: for the offset-only filter the code returns an
engine error, not the sorted matching words, so the for-every-filter claim
fails; the sorted tail the claim expects is b then a. -/
theorem C6_offset_only_counterexample :
    repoList c6Store { offset := 1 } =
      Except.error ("failed to query words: " ++ offsetSyntaxError) ∧
    (listSpec c6Store { offset := 1 }).map (List.map Word.word) =
      Except.ok ["b", "a"] :=
  ⟨rfl, rfl⟩

/- ## Lemmas: CSV write and read round-trip -/

theorem csvEscape_cons_ne {c : Char} (cs : List Char) (hc : ¬ c = '"') :
    csvEscape (c :: cs) = c :: csvEscape cs := by
  rw [csvEscape.eq_def]
  split <;> simp_all

theorem parseQuoted_escape : ∀ (s rest : List Char), ¬ rest.headD ',' = '"' →
    parseQuoted (csvEscape s ++ ('"' :: rest)) = some (s, rest) := by
  intro s
  induction s with
  | nil =>
    intro rest hne
    show parseQuoted ('"' :: rest) = some ([], rest)
    cases rest with
    | nil => rfl
    | cons d rest' =>
      simp only [List.headD_cons] at hne
      simp [parseQuoted, hne]
  | cons c cs ih =>
    intro rest hne
    by_cases hc : c = '"'
    · subst hc
      show parseQuoted ('"' :: '"' :: (csvEscape cs ++ ('"' :: rest))) = _
      simp [parseQuoted, ih rest hne]
    · rw [csvEscape_cons_ne cs hc, List.cons_append, parseQuoted.eq_def]
      simp [hc, ih rest hne]

theorem parseUnquoted_plain : ∀ (s : List Char),
    (∀ c ∈ s, ¬ c = ',' ∧ ¬ c = '\n') →
    ∀ (d : Char) (rest : List Char), (d = ',' ∨ d = '\n') →
    parseUnquoted (s ++ (d :: rest)) = (s, d :: rest) := by
  intro s
  induction s with
  | nil =>
    intro _ d rest hd
    show parseUnquoted (d :: rest) = ([], d :: rest)
    simp [parseUnquoted, hd]
  | cons c cs ih =>
    intro h d rest hd
    have hc := h c (List.mem_cons_self c cs)
    show parseUnquoted (c :: (cs ++ (d :: rest))) = (c :: cs, d :: rest)
    rw [parseUnquoted]
    simp only [hc.1, hc.2, or_self, if_false]
    rw [ih (fun x hx => h x (List.mem_cons_of_mem c hx)) d rest hd]

theorem fieldNeedsQuotes_false_no_specials {f : String}
    (h : fieldNeedsQuotes f = false) :
    ∀ c ∈ f.data, ¬ c = ',' ∧ ¬ c = '"' ∧ ¬ c = '\n' := by
  intro c hc
  unfold fieldNeedsQuotes at h
  by_cases h0 : f = ""
  · subst h0; simp at hc
  · rw [if_neg h0] at h
    by_cases h1 : f = "\\."
    · rw [if_pos h1] at h; cases h
    · rw [if_neg h1] at h
      by_cases h2 : f.data.any (fun c => c = ',' ∨ c = '"' ∨ c = '\r' ∨ c = '\n')
      · rw [if_pos h2] at h; cases h
      · have := List.any_eq_false.mp (Bool.not_eq_true _ ▸ (by exact_mod_cast h2 : ¬ _)) c hc
        simp at this
        exact ⟨this.1, this.2.1, this.2.2.2⟩

theorem data_writeField_quoted {f : String} (h : fieldNeedsQuotes f = true) :
    (csvWriteField f).data = '"' :: (csvEscape f.data ++ ['"']) := by
  unfold csvWriteField
  rw [if_pos h]

theorem data_writeField_unquoted {f : String} (h : fieldNeedsQuotes f = false) :
    (csvWriteField f).data = f.data := by
  unfold csvWriteField
  rw [if_neg (by simp [h])]

theorem parseFields_oneField (f : String) (fuel : Nat) (d : Char) (rest : List Char)
    (hd : ¬ d = '"') (hdl : d = ',' ∨ d = '\n') :
    parseFields (fuel + 1) ((csvWriteField f).data ++ (d :: rest)) =
      (if d = ',' then
        (let p := parseFields fuel rest
         ((p.1).map (fun fs => f :: fs), p.2))
       else (Except.ok [f], rest)) := by
  cases hq : fieldNeedsQuotes f with
  | true =>
    rw [data_writeField_quoted hq, List.cons_append, List.append_assoc,
      (show (['"'] : List Char) ++ (d :: rest) = '"' :: (d :: rest) from rfl)]
    have hpq : parseQuoted (csvEscape f.data ++ ('"' :: (d :: rest))) =
        some (f.data, d :: rest) :=
      parseQuoted_escape f.data (d :: rest) (by simpa using hd)
    rw [parseFields.eq_def]
    simp only [hpq]
    by_cases hdc : d = ','
    · simp [hdc, string_mk_data]
    · have hdn : d = '\n' := by tauto
      simp [hdc, hdn, string_mk_data]
  | false =>
    rw [data_writeField_unquoted hq]
    have hspec := fieldNeedsQuotes_false_no_specials hq
    have hpu : parseUnquoted (f.data ++ (d :: rest)) = (f.data, d :: rest) :=
      parseUnquoted_plain f.data (fun c hc => ⟨(hspec c hc).1, (hspec c hc).2.2⟩) d rest hdl
    have hnq : (f.data.contains '"') = false := by
      rw [List.contains_eq_any_beq]
      rw [List.any_eq_false]
      intro c hc
      have := (hspec c hc).2.1
      simp
      intro he
      exact absurd he.symm this
    cases hfd : f.data with
    | nil =>
      have hf0 : f = "" := by
        cases f with
        | mk l => simp at hfd; simp [hfd]
      subst hf0
      show parseFields (fuel + 1) (d :: rest) = _
      rw [parseFields.eq_def]
      have hdq : ¬ d = '"' := hd
      simp only [hdq, if_false]
      have : parseUnquoted (d :: rest) = ([], d :: rest) := by
        simp [parseUnquoted, hdl]
      simp only [this]
      by_cases hdc : d = ','
      · simp [hdc]
      · have hdn : d = '\n' := by tauto
        simp [hdc, hdn]
    | cons c cs =>
      have hcq : ¬ c = '"' := by
        have := hspec c (by rw [hfd]; exact List.mem_cons_self c cs)
        exact this.2.1
      rw [← hfd]
      have hshape : f.data ++ (d :: rest) = c :: (cs ++ (d :: rest)) := by
        rw [hfd]; rfl
      rw [hshape, parseFields.eq_def]
      simp only [hcq, if_false]
      rw [← hshape, hpu]
      simp only [hnq]
      show (match d :: rest with
        | [] => (Except.ok [(⟨f.data⟩ : String)], ([] : List Char))
        | d :: r' =>
          if d = ',' then
            let p := parseFields fuel r'
            ((p.1).map (fun fs => (⟨f.data⟩ : String) :: fs), p.2)
          else (Except.ok [⟨f.data⟩], r')) = _
      by_cases hdc : d = ','
      · simp [hdc, string_mk_data]
      · have hdn : d = '\n' := by tauto
        simp [hdc, hdn, string_mk_data]

theorem parseFields_record : ∀ (fields : List String) (fuel : Nat) (rest : List Char),
    fields ≠ [] → fields.length ≤ fuel →
    parseFields fuel ((csvWriteFields fields).data ++ ('\n' :: rest)) =
      (Except.ok fields, rest) := by
  intro fields
  induction fields with
  | nil => intro fuel rest h _; cases h rfl
  | cons f fs ih =>
    intro fuel rest _ hlen
    match fuel, hlen with
    | fuel + 1, hlen =>
      cases fs with
      | nil =>
        rw [show csvWriteFields [f] = csvWriteField f from rfl]
        rw [parseFields_oneField f fuel '\n' rest (by decide) (Or.inr rfl)]
        simp
      | cons g gs =>
        rw [show csvWriteFields (f :: g :: gs) =
          csvWriteField f ++ "," ++ csvWriteFields (g :: gs) from rfl]
        rw [String.data_append, String.data_append, List.append_assoc, List.append_assoc]
        rw [show ((("," : String).data) ++ ((csvWriteFields (g :: gs)).data ++ ('\n' :: rest))) =
          ',' :: ((csvWriteFields (g :: gs)).data ++ ('\n' :: rest)) from rfl]
        rw [parseFields_oneField f fuel ',' _ (by decide) (Or.inl rfl)]
        rw [if_pos rfl]
        have hrec := ih fuel rest (by simp) (by
          simp only [List.length_cons] at hlen ⊢; omega)
        simp [hrec, Except.map]

theorem csvWriteFields_length_ge :
    ∀ fields : List String, fields.length ≤ (csvWriteFields fields).data.length + 1 := by
  intro fields
  induction fields with
  | nil => simp [csvWriteFields]
  | cons f fs ih =>
    cases fs with
    | nil => simp [csvWriteFields]
    | cons g gs =>
      rw [show csvWriteFields (f :: g :: gs) =
        csvWriteField f ++ "," ++ csvWriteFields (g :: gs) from rfl]
      rw [String.data_append, String.data_append]
      simp only [List.length_cons, List.length_append] at ih ⊢
      have : ("," : String).data.length = 1 := rfl
      omega

theorem writeFields_head (f g : String) (gs : List String) :
    ∃ c cs, (csvWriteFields (f :: g :: gs)).data = c :: cs ∧ ¬ c = '\n' := by
  rw [show csvWriteFields (f :: g :: gs) =
    csvWriteField f ++ "," ++ csvWriteFields (g :: gs) from rfl]
  rw [String.data_append, String.data_append]
  cases hq : fieldNeedsQuotes f with
  | true =>
    rw [data_writeField_quoted hq]
    exact ⟨'"', _, rfl, by decide⟩
  | false =>
    rw [data_writeField_unquoted hq]
    cases hfd : f.data with
    | nil => exact ⟨',', _, rfl, by decide⟩
    | cons c cs =>
      have hc := fieldNeedsQuotes_false_no_specials hq c (by rw [hfd]; exact List.mem_cons_self c cs)
      exact ⟨c, _, rfl, hc.2.2⟩

theorem readRecord_record : ∀ (fields : List String) (rest : List Char),
    2 ≤ fields.length →
    readRecord ((csvWriteRecord fields).data ++ rest) = (Except.ok fields, rest) := by
  intro fields rest h2
  match fields, h2 with
  | f :: g :: gs, _ =>
    unfold csvWriteRecord
    rw [String.data_append, List.append_assoc]
    rw [show ((("\n" : String).data) ++ rest) = '\n' :: rest from rfl]
    obtain ⟨c, cs, hdata, hc⟩ := writeFields_head f g gs
    unfold readRecord
    rw [hdata]
    rw [show ((c :: cs) ++ ('\n' :: rest)) = c :: (cs ++ ('\n' :: rest)) from rfl]
    rw [show dropBlankLines (c :: (cs ++ ('\n' :: rest))) = c :: (cs ++ ('\n' :: rest)) from by
      simp [dropBlankLines, hc]]
    show parseFields ((c :: (cs ++ ('\n' :: rest))).length + 1) (c :: (cs ++ ('\n' :: rest))) = _
    rw [show c :: (cs ++ ('\n' :: rest)) = (csvWriteFields (f :: g :: gs)).data ++ ('\n' :: rest) from by
      rw [hdata, List.cons_append]]
    apply parseFields_record _ _ _ (by simp)
    have hlen := csvWriteFields_length_ge (f :: g :: gs)
    simp only [List.length_cons, List.length_append] at hlen ⊢
    omega

theorem importLoop_eof (fuel : Nat) (header : List String) (st : Store)
    (lineNum now : Nat) (res : ImportResult) :
    importLoop (fuel + 1) header st [] lineNum now res = (res, st) := rfl

theorem importLoop_step (fuel : Nat) (header : List String) (st : Store)
    (input : List Char) (lineNum now : Nat) (res : ImportResult)
    (record : List String) (rest : List Char)
    (hr : readRecord input = (Except.ok record, rest))
    (hlen : record.length = header.length) :
    importLoop (fuel + 1) header st input lineNum now res =
      importLoop fuel header (importRow header record st lineNum now res).2 rest
        (lineNum + 1) now (importRow header record st lineNum now res).1 := by
  cases himp : importRow header record st lineNum now res with
  | mk res' st' =>
    simp [importLoop, hr, hlen, himp]

def importHeader3 : List String := ["word", "source", "date_learned"]

theorem importRow3_ok (w s d : String) (st : Store) (ln now : Nat) (res : ImportResult)
    (hw0 : ¬ goTrim w = "") (hs0 : ¬ goTrim s = "") (hd0 : ¬ goTrim d = "")
    (hdup : st.rows.find? (fun r => r.word = goTrim w) = none) :
    importRow importHeader3 [w, s, d] st ln now res =
      ({ res with imported := res.imported + 1 },
       { rows := st.rows ++
           [{ id := st.nextId, word := goTrim w, source := goTrim s, dateLearned := goTrim d,
              partOfSpeech := none, exampleSentence := none,
              tagsJson := tagsToJson (some []), createdAt := now, updatedAt := now }],
         nextId := st.nextId + 1 }) := by
  have hany : st.rows.any (fun r => r.word = goTrim w) = false := by
    rw [List.any_eq_false]
    intro r hr
    have := List.find?_eq_none.mp hdup r hr
    simpa using this
  have hget : repoGetByWord st (goTrim w) = Except.error errNoRows := by
    unfold repoGetByWord; rw [hdup]
  have hcreate : repoCreate st
      { id := 0, word := goTrim w, source := goTrim s, dateLearned := goTrim d,
        partOfSpeech := none, exampleSentence := none,
        tags := some [], createdAt := 0, updatedAt := 0 } now =
    Except.ok
      ({ id := st.nextId, word := goTrim w, source := goTrim s, dateLearned := goTrim d,
         partOfSpeech := none, exampleSentence := none,
         tags := some [], createdAt := now, updatedAt := now },
       { rows := st.rows ++
           [{ id := st.nextId, word := goTrim w, source := goTrim s, dateLearned := goTrim d,
              partOfSpeech := none, exampleSentence := none,
              tagsJson := tagsToJson (some []), createdAt := now, updatedAt := now }],
         nextId := st.nextId + 1 }) := by
    unfold repoCreate; rw [if_neg (by simp [hany])]
  show (if goTrim w = "" ∨ goTrim s = "" ∨ goTrim d = "" then _ else _) = _
  rw [if_neg (by simp [hw0, hs0, hd0])]
  rw [show fieldAt [w, s, d] ((lookupCol importHeader3 "word").getD 0) = w from rfl,
      show fieldAt [w, s, d] ((lookupCol importHeader3 "source").getD 0) = s from rfl,
      show fieldAt [w, s, d] ((lookupCol importHeader3 "date_learned").getD 0) = d from rfl,
      show lookupCol importHeader3 "part_of_speech" = none from rfl,
      show lookupCol importHeader3 "example_sentence" = none from rfl,
      show lookupCol importHeader3 "tags" = none from rfl]
  dsimp only []
  rw [hget]
  dsimp only []
  rw [hcreate]

theorem importRow3_skip (w s d : String) (st : Store) (ln now : Nat) (res : ImportResult)
    (h : goTrim w = "" ∨ goTrim s = "" ∨ goTrim d = "") :
    importRow importHeader3 [w, s, d] st ln now res =
      ({ res with skipped := res.skipped + 1,
                  errors := res.errors ++
                    ["line " ++ toString ln ++ ": missing required field"] },
       st) := by
  show (if goTrim w = "" ∨ goTrim s = "" ∨ goTrim d = "" then _ else _) = _
  rw [if_pos h]

/- ## Claim C8: missing required field during import -/

/-- A field that the CSV writer emits bare and the import pipeline keeps
unchanged: non-empty, trim-stable, never quoted, no carriage return. -/
def plainField (s : String) : Bool :=
  ¬ s = "" ∧ goTrim s = s ∧ fieldNeedsQuotes s = false ∧ ¬ s.data.contains '\r'

theorem csvWriteRecord_length_ge (fields : List String) :
    fields.length ≤ (csvWriteRecord fields).data.length := by
  unfold csvWriteRecord
  rw [String.data_append]
  have := csvWriteFields_length_ge fields
  simp only [List.length_append, List.length_cons, List.length_nil]
  omega

def c8Input (w1 s1 d1 w2 d2 : String) : String :=
  csvWriteRecord importHeader3 ++
    (csvWriteRecord [w1, s1, d1] ++ csvWriteRecord [w2, "", d2])

/-- C8 amended: importing two rows where the second has an empty source
yields imported 1, skipped 1, and the recorded skip reason is the fixed
message missing required field carrying the correct line number (line 3) —
it does not name which field was missing. -/
theorem C8_missing_field_amended (w1 s1 d1 w2 d2 : String) (now : Nat)
    (h1 : plainField w1 = true) (h2 : plainField s1 = true)
    (h3 : plainField d1 = true) (h4 : plainField w2 = true)
    (h5 : plainField d2 = true) :
    (importCSV emptyStore (c8Input w1 s1 d1 w2 d2) now).1 =
      Except.ok { imported := 1, skipped := 1,
                  errors := ["line 3: missing required field"] } ∧
    ((importCSV emptyStore (c8Input w1 s1 d1 w2 d2) now).2).rows.map Row.word = [w1] := by
  simp only [plainField, Bool.decide_and, Bool.and_eq_true, decide_eq_true_eq] at h1 h2 h3 h4 h5
  obtain ⟨hw1, htw1, hq1, _⟩ := h1
  obtain ⟨hs1, hts1, hq2, _⟩ := h2
  obtain ⟨hd1, htd1, hq3, _⟩ := h3
  obtain ⟨hw2, htw2, hq4, _⟩ := h4
  obtain ⟨hd2, htd2, hq5, _⟩ := h5
  have hdata : (c8Input w1 s1 d1 w2 d2).data =
      (csvWriteRecord importHeader3).data ++
        ((csvWriteRecord [w1, s1, d1]).data ++ (csvWriteRecord [w2, "", d2]).data) := by
    unfold c8Input
    rw [String.data_append, String.data_append]
  have hheader := readRecord_record importHeader3
    ((csvWriteRecord [w1, s1, d1]).data ++ (csvWriteRecord [w2, "", d2]).data)
    (by decide)
  have hlenB := csvWriteRecord_length_ge [w1, s1, d1]
  have hlenC := csvWriteRecord_length_ge [w2, "", d2]
  obtain ⟨k, hk⟩ : ∃ k,
      ((csvWriteRecord [w1, s1, d1]).data ++ (csvWriteRecord [w2, "", d2]).data).length + 1 =
        k + 3 := by
    refine ⟨((csvWriteRecord [w1, s1, d1]).data ++ (csvWriteRecord [w2, "", d2]).data).length - 2, ?_⟩
    simp only [List.length_append]
    simp only [List.length_cons, List.length_nil] at hlenB hlenC
    omega
  have hrow1 := readRecord_record [w1, s1, d1] (csvWriteRecord [w2, "", d2]).data (by simp)
  have hrow2 : readRecord (csvWriteRecord [w2, "", d2]).data =
      (Except.ok [w2, "", d2], []) := by
    have := readRecord_record [w2, "", d2] [] (by simp)
    simpa using this
  have hrowOk : importRow importHeader3 [w1, s1, d1] emptyStore 2 now
      { imported := 0, skipped := 0, errors := [] } =
      ({ imported := 1, skipped := 0, errors := [] },
       { rows := [{ id := 1, word := w1, source := s1, dateLearned := d1,
                    partOfSpeech := none, exampleSentence := none,
                    tagsJson := tagsToJson (some []), createdAt := now, updatedAt := now }],
         nextId := 2 }) := by
    have h := importRow3_ok w1 s1 d1 emptyStore 2 now
      { imported := 0, skipped := 0, errors := [] }
      (by rw [htw1]; exact hw1) (by rw [hts1]; exact hs1) (by rw [htd1]; exact hd1)
      rfl
    rw [htw1, hts1, htd1] at h
    exact h
  have hrowSkip : importRow importHeader3 [w2, "", d2]
      { rows := [{ id := 1, word := w1, source := s1, dateLearned := d1,
                   partOfSpeech := none, exampleSentence := none,
                   tagsJson := tagsToJson (some []), createdAt := now, updatedAt := now }],
        nextId := 2 }
      3 now { imported := 1, skipped := 0, errors := [] } =
      ({ imported := 1, skipped := 1, errors := ["line 3: missing required field"] },
       { rows := [{ id := 1, word := w1, source := s1, dateLearned := d1,
                    partOfSpeech := none, exampleSentence := none,
                    tagsJson := tagsToJson (some []), createdAt := now, updatedAt := now }],
         nextId := 2 }) := by
    have h := importRow3_skip w2 "" d2
      { rows := [{ id := 1, word := w1, source := s1, dateLearned := d1,
                   partOfSpeech := none, exampleSentence := none,
                   tagsJson := tagsToJson (some []), createdAt := now, updatedAt := now }],
        nextId := 2 }
      3 now { imported := 1, skipped := 0, errors := [] }
      (Or.inr (Or.inl rfl))
    exact h
  have hloop : importLoop
      (((csvWriteRecord [w1, s1, d1]).data ++ (csvWriteRecord [w2, "", d2]).data).length + 1)
      importHeader3 emptyStore
      ((csvWriteRecord [w1, s1, d1]).data ++ (csvWriteRecord [w2, "", d2]).data)
      2 now { imported := 0, skipped := 0, errors := [] } =
      ({ imported := 1, skipped := 1, errors := ["line 3: missing required field"] },
       { rows := [{ id := 1, word := w1, source := s1, dateLearned := d1,
                    partOfSpeech := none, exampleSentence := none,
                    tagsJson := tagsToJson (some []), createdAt := now, updatedAt := now }],
         nextId := 2 }) := by
    rw [hk]
    rw [importLoop_step (k + 2) importHeader3 emptyStore _ 2 now _ [w1, s1, d1] _ hrow1 rfl]
    rw [hrowOk]
    dsimp only []
    rw [importLoop_step (k + 1) importHeader3 _ _ 3 now _ [w2, "", d2] _ hrow2 rfl]
    rw [hrowSkip]
    dsimp only []
    rw [importLoop_eof k]
  constructor
  · show (match readRecord (c8Input w1 s1 d1 w2 d2).data with
      | (Except.error e, _) =>
        (Except.error ("failed to read CSV header: " ++ csvErrMsg e), emptyStore)
      | (Except.ok header, rest) =>
        match requiredCols.find? (fun c => (lookupCol header c).isNone) with
        | some c => (Except.error ("missing required column: " ++ c), emptyStore)
        | none =>
          let p := importLoop (rest.length + 1) header emptyStore rest 2 now
            { imported := 0, skipped := 0, errors := [] }
          (Except.ok p.1, p.2)).1 = _
    rw [hdata, hheader]
    dsimp only []
    rw [show requiredCols.find? (fun c => (lookupCol importHeader3 c).isNone) = none from rfl]
    dsimp only []
    rw [hloop]
  · show ((match readRecord (c8Input w1 s1 d1 w2 d2).data with
      | (Except.error e, _) =>
        (Except.error ("failed to read CSV header: " ++ csvErrMsg e), emptyStore)
      | (Except.ok header, rest) =>
        match requiredCols.find? (fun c => (lookupCol header c).isNone) with
        | some c => (Except.error ("missing required column: " ++ c), emptyStore)
        | none =>
          let p := importLoop (rest.length + 1) header emptyStore rest 2 now
            { imported := 0, skipped := 0, errors := [] }
          (Except.ok p.1, p.2)).2).rows.map Row.word = _
    rw [hdata, hheader]
    dsimp only []
    rw [show requiredCols.find? (fun c => (lookupCol importHeader3 c).isNone) = none from rfl]
    dsimp only []
    rw [hloop]
    rfl

/-- C8 amended, witnessed at the concrete rows of the spec example. -/
theorem C8_missing_field_amended_witness :
    (importCSV emptyStore (c8Input "ephemeral" "Book" "2024-01-15" "ubiquitous" "2024-02-20") 7).1 =
      Except.ok { imported := 1, skipped := 1,
                  errors := ["line 3: missing required field"] } :=
  (C8_missing_field_amended "ephemeral" "Book" "2024-01-15" "ubiquitous" "2024-02-20" 7
    (by decide) (by decide) (by decide) (by decide) (by decide)).1

/-- C8 counterexample: the recorded skip reason carries the line number but
is the fixed text missing required field — the name of the empty field
(source) appears nowhere in it, so the reason does not name the missing
field. -/
theorem C8_field_name_counterexample :
    (importCSV emptyStore "word,source,date_learned\nephemeral,Book,2024-01-15\nubiquitous,,2024-02-20\n" 7).1 =
      Except.ok { imported := 1, skipped := 1,
                  errors := ["line 3: missing required field"] } ∧
    ¬ (("source" : String).data <:+: ("line 3: missing required field" : String).data) ∧
    (("line 3" : String).data <:+: ("line 3: missing required field" : String).data) :=
  ⟨rfl, by decide, by decide⟩

/- ## Claim C5: header validation and row-isolated failures -/

theorem importRow_skip_invariant (header record : List String) (st : Store)
    (ln now : Nat) (res : ImportResult) (h : res.skipped = res.errors.length) :
    ((importRow header record st ln now res).1).skipped =
      ((importRow header record st ln now res).1).errors.length := by
  unfold importRow
  repeat' split
  all_goals dsimp only
  all_goals repeat' split
  all_goals simp [h]

theorem importLoop_skip_invariant : ∀ (fuel : Nat) (header : List String) (st : Store)
    (input : List Char) (ln now : Nat) (res : ImportResult),
    res.skipped = res.errors.length →
    ((importLoop fuel header st input ln now res).1).skipped =
      ((importLoop fuel header st input ln now res).1).errors.length := by
  intro fuel
  induction fuel with
  | zero =>
    intro header st input ln now res h
    simpa [importLoop] using h
  | succ fuel ih =>
    intro header st input ln now res h
    rcases hread : readRecord input with ⟨r0, rest0⟩
    cases r0 with
    | error e =>
      cases e with
      | eof => simpa [importLoop, hread] using h
      | quoteErr =>
        rw [show importLoop (fuel + 1) header st input ln now res =
          importLoop fuel header st rest0 (ln + 1) now
            { res with skipped := res.skipped + 1,
                       errors := res.errors ++ ["line " ++ toString ln ++ ": " ++ csvErrMsg CsvErr.quoteErr] }
          from by simp [importLoop, hread]]
        exact ih _ _ _ _ _ _ (by simp [h])
      | bareQuote =>
        rw [show importLoop (fuel + 1) header st input ln now res =
          importLoop fuel header st rest0 (ln + 1) now
            { res with skipped := res.skipped + 1,
                       errors := res.errors ++ ["line " ++ toString ln ++ ": " ++ csvErrMsg CsvErr.bareQuote] }
          from by simp [importLoop, hread]]
        exact ih _ _ _ _ _ _ (by simp [h])
      | fieldCount =>
        rw [show importLoop (fuel + 1) header st input ln now res =
          importLoop fuel header st rest0 (ln + 1) now
            { res with skipped := res.skipped + 1,
                       errors := res.errors ++ ["line " ++ toString ln ++ ": " ++ csvErrMsg CsvErr.fieldCount] }
          from by simp [importLoop, hread]]
        exact ih _ _ _ _ _ _ (by simp [h])
    | ok record =>
      by_cases hlen : record.length = header.length
      · rw [importLoop_step fuel header st input ln now res record rest0 hread hlen]
        exact ih _ _ _ _ _ _ (importRow_skip_invariant header record st ln now res h)
      · rw [show importLoop (fuel + 1) header st input ln now res =
          importLoop fuel header st rest0 (ln + 1) now
            { res with skipped := res.skipped + 1,
                       errors := res.errors ++ ["line " ++ toString ln ++ ": " ++ csvErrMsg CsvErr.fieldCount] }
          from by
            simp only [importLoop, hread]
            rw [if_pos (by simpa using hlen)]]
        exact ih _ _ _ _ _ _ (by simp [h])

/-- C5 amended: the import fails as a whole exactly when the header is the
problem — either the header record cannot be read at all, or it lacks a
required column; on every whole failure the store is untouched; and once
the header has been read and validated, the operation always returns an
ImportResult in which every failed row is a skipped row carrying an error
string (skipped equals the number of recorded errors). -/
theorem C5_import_whole_failure_amended (st : Store) (input : String) (now : Nat) :
    ((importCSV st input now).1.isOk = false ↔ headerProblem input = true) ∧
    ((importCSV st input now).1.isOk = false → (importCSV st input now).2 = st) ∧
    (∀ res, (importCSV st input now).1 = Except.ok res →
      res.skipped = res.errors.length) := by
  unfold importCSV headerProblem
  rcases hread : readRecord input.data with ⟨r0, rest0⟩
  cases r0 with
  | error e =>
    dsimp only []
    refine ⟨by simp [Except.isOk, Except.toBool], fun _ => rfl, fun res h => ?_⟩
    cases h
  | ok header =>
    dsimp only []
    cases hfind : requiredCols.find? (fun c => (lookupCol header c).isNone) with
    | some c =>
      have hmem : c ∈ requiredCols := List.mem_of_find?_eq_some hfind
      have hpred : (lookupCol header c).isNone = true := by
        have := List.find?_some hfind
        simpa using this
      have hany : requiredCols.any (fun c => (lookupCol header c).isNone) = true := by
        rw [List.any_eq_true]
        exact ⟨c, hmem, hpred⟩
      dsimp only []
      refine ⟨by simp [Except.isOk, Except.toBool, hany], fun _ => rfl, fun res h => ?_⟩
      cases h
    | none =>
      have hany : requiredCols.any (fun c => (lookupCol header c).isNone) = false := by
        rw [List.any_eq_false]
        intro x hx
        have := List.find?_eq_none.mp hfind x hx
        simpa using this
      dsimp only []
      refine ⟨by simp [Except.isOk, Except.toBool, hany], ?_, ?_⟩
      · intro h
        simp [Except.isOk, Except.toBool] at h
      · intro res h
        have hres : res = (importLoop (rest0.length + 1) header st rest0 2 now
            { imported := 0, skipped := 0, errors := [] }).1 := by
          cases h
          rfl
        rw [hres]
        exact importLoop_skip_invariant _ _ _ _ _ _ _ rfl

def c5BadInput : String := "word,source,date_learned,\"x\ny,z,2024-01-01\n"

/-- C5 amended, witnessed at a header missing date_learned (whole failure,
untouched store) and at a well-formed import whose one bad row is skipped
with one recorded error. -/
theorem C5_import_whole_failure_amended_witness :
    ((importCSV emptyStore "word,source\na,b\n" 7).1.isOk = false) ∧
    ((importCSV emptyStore "word,source\na,b\n" 7).2 = emptyStore) ∧
    (∀ res, (importCSV emptyStore "word,source,date_learned\nephemeral,,2024-01-15\n" 7).1 =
        Except.ok res → res.skipped = res.errors.length) := by
  refine ⟨?_, ?_, ?_⟩
  · exact (C5_import_whole_failure_amended emptyStore "word,source\na,b\n" 7).1.mpr rfl
  · exact (C5_import_whole_failure_amended emptyStore "word,source\na,b\n" 7).2.1
      ((C5_import_whole_failure_amended emptyStore "word,source\na,b\n" 7).1.mpr rfl)
  · exact (C5_import_whole_failure_amended emptyStore
      "word,source,date_learned\nephemeral,,2024-01-15\n" 7).2.2

/-- C5 counterexample: an input whose first line mentions all three
required column names but is malformed CSV (an unterminated quoted cell).
The whole operation fails — but with the header-read error, not the
missing-required-column failure, so whole failure is not equivalent to a
required column being missing from the header. -/
theorem C5_header_failure_counterexample :
    (importCSV emptyStore c5BadInput 7).1 =
      Except.error ("failed to read CSV header: " ++ csvErrMsg CsvErr.quoteErr) ∧
    (importCSV emptyStore c5BadInput 7).2 = emptyStore ∧
    ("failed to read CSV header: " ++ csvErrMsg CsvErr.quoteErr) ≠
      "missing required column: word" ∧
    ("failed to read CSV header: " ++ csvErrMsg CsvErr.quoteErr) ≠
      "missing required column: source" ∧
    ("failed to read CSV header: " ++ csvErrMsg CsvErr.quoteErr) ≠
      "missing required column: date_learned" ∧
    (("word" : String).data <:+: c5BadInput.data) ∧
    (("source" : String).data <:+: c5BadInput.data) ∧
    (("date_learned" : String).data <:+: c5BadInput.data) :=
  ⟨rfl, rfl, by decide, by decide, by decide, by decide, by decide, by decide⟩

/- ## Claim C10: the tags column is always a JSON array -/

theorem repoCreate_rowTagsOk {st : Store} {w : Word} {now : Nat} {w2 : Word}
    {st2 : Store} (hw : ∃ ts, w.tags = some ts)
    (h : repoCreate st w now = Except.ok (w2, st2))
    (hst : ∀ r ∈ st.rows, rowTagsOk r) :
    ∀ r ∈ st2.rows, rowTagsOk r := by
  unfold repoCreate at h
  split at h
  · cases h
  · dsimp only at h
    obtain ⟨ts, hts⟩ := hw
    cases h
    intro r hr
    rcases List.mem_append.mp hr with hold | hnew
    · exact hst r hold
    · have hr2 := List.mem_singleton.mp hnew
      subst hr2
      exact ⟨ts, by simp [hts]⟩

theorem importRow_rowTagsOk (header record : List String) (st : Store)
    (ln now : Nat) (res : ImportResult)
    (hst : ∀ r ∈ st.rows, rowTagsOk r) :
    ∀ r ∈ ((importRow header record st ln now res).2).rows, rowTagsOk r := by
  unfold importRow
  repeat' split
  all_goals dsimp only
  all_goals repeat' split
  all_goals first
    | exact hst
    | (rename_i heq
       exact repoCreate_rowTagsOk ⟨_, rfl⟩ heq hst)

theorem importLoop_rowTagsOk : ∀ (fuel : Nat) (header : List String) (st : Store)
    (input : List Char) (ln now : Nat) (res : ImportResult),
    (∀ r ∈ st.rows, rowTagsOk r) →
    ∀ r ∈ ((importLoop fuel header st input ln now res).2).rows, rowTagsOk r := by
  intro fuel
  induction fuel with
  | zero =>
    intro header st input ln now res hst
    simpa [importLoop] using hst
  | succ fuel ih =>
    intro header st input ln now res hst
    rcases hread : readRecord input with ⟨r0, rest0⟩
    cases r0 with
    | error e =>
      cases e
      case eof => simpa [importLoop, hread] using hst
      all_goals
        simp only [importLoop, hread]
        exact ih _ _ _ _ _ _ hst
    | ok record =>
      by_cases hlen : record.length = header.length
      · rw [importLoop_step fuel header st input ln now res record rest0 hread hlen]
        exact ih _ _ _ _ _ _ (importRow_rowTagsOk header record st ln now res hst)
      · simp only [importLoop, hread]
        rw [if_pos (by simpa using hlen)]
        exact ih _ _ _ _ _ _ hst

/-- C10: on any store whose rows all carry an array-serialized tags column,
every persistence path of the service layer preserves that invariant — a
service-layer create (whatever the request's tag field, absent included)
and a CSV import only ever insert rows whose tags column is the
serialization of a present (some) tag list; and every row satisfying the
invariant has a tags column different from the JSON text null and is
decoded back successfully by the row scanner. -/
theorem C10_tags_invariant (st : Store) (now : Nat)
    (hst : ∀ r ∈ st.rows, rowTagsOk r) :
    (∀ req w st2, serviceCreate st req now = Except.ok (w, st2) →
        ∀ r ∈ st2.rows, rowTagsOk r) ∧
    (∀ input, ∀ r ∈ ((importCSV st input now).2).rows, rowTagsOk r) ∧
    (∀ r : Row, rowTagsOk r →
        r.tagsJson ≠ "null" ∧ (scanWord r).isOk = true) := by
  refine ⟨?_, ?_, ?_⟩
  · intro req w st2 h
    unfold serviceCreate at h
    split at h
    · cases h
    · split at h
      · cases h
      · split at h
        · cases h
        · split at h
          · cases h
          · dsimp only at h
            exact repoCreate_rowTagsOk ⟨_, rfl⟩ h hst
  · intro input
    unfold importCSV
    rcases hread : readRecord input.data with ⟨r0, rest0⟩
    cases r0 with
    | error e =>
      dsimp only []
      exact hst
    | ok header =>
      dsimp only []
      cases hfind : requiredCols.find? (fun c => (lookupCol header c).isNone) with
      | some c =>
        dsimp only []
        exact hst
      | none =>
        dsimp only []
        exact importLoop_rowTagsOk _ _ _ _ _ _ _ hst
  · intro r hr
    obtain ⟨ts, hts⟩ := hr
    refine ⟨by rw [hts]; exact tagsToJson_ne_null ts, ?_⟩
    rw [scanWord_ok hts]
    rfl

def c10Req : CreateWordRequest :=
  { word := "ephemeral", source := "Book", dateLearned := "2024-01-15",
    partOfSpeech := none, exampleSentence := none, tags := none }

def c10Word : Word :=
  { id := 1, word := "ephemeral", source := "Book", dateLearned := "2024-01-15",
    partOfSpeech := none, exampleSentence := none, tags := some [],
    createdAt := 7, updatedAt := 7 }

def c10Store : Store :=
  { rows := [{ id := 1, word := "ephemeral", source := "Book",
               dateLearned := "2024-01-15", partOfSpeech := none,
               exampleSentence := none, tagsJson := tagsToJson (some []),
               createdAt := 7, updatedAt := 7 }],
    nextId := 2 }

/-- C10, witnessed on the empty store: a create with an absent tag list and
a one-row import both leave every stored row with an array-serialized tags
column. -/
theorem C10_tags_invariant_witness :
    (∀ r ∈ c10Store.rows, rowTagsOk r) ∧
    (∀ r ∈ ((importCSV emptyStore
        "word,source,date_learned\nubiquitous,Book,2024-02-20\n" 7).2).rows,
      rowTagsOk r) :=
  ⟨(C10_tags_invariant emptyStore 7 (by simp [emptyStore])).1
      c10Req c10Word c10Store rfl,
   (C10_tags_invariant emptyStore 7 (by simp [emptyStore])).2.1
      "word,source,date_learned\nubiquitous,Book,2024-02-20\n"⟩

theorem goTrim_of_ends {s : String} (h0 : ¬ s = "")
    (hh : goIsSpace (s.data.headD ' ') = false)
    (hl : goIsSpace (s.data.getLastD ' ') = false) :
    goTrim s = s := by
  cases s with
  | mk l =>
    cases l with
    | nil => exact absurd rfl h0
    | cons c cs =>
      unfold goTrim
      have hc : goIsSpace c = false := by simpa using hh
      rw [show (String.mk (c :: cs)).data = c :: cs from rfl]
      rw [List.dropWhile_cons, hc]
      simp only [Bool.false_eq_true, if_false]
      cases hrev : (c :: cs).reverse with
      | nil => exact absurd (congrArg List.length hrev) (by simp)
      | cons d ds =>
        have hlast : (c :: cs).getLastD ' ' = d := by
          rw [List.getLastD_eq_getLast?, ← List.head?_reverse, hrev]
          rfl
        have hd : goIsSpace d = false := by
          have hl2 : goIsSpace ((c :: cs).getLastD ' ') = false := hl
          rwa [hlast] at hl2
        rw [List.dropWhile_cons, hd]
        simp only [Bool.false_eq_true, if_false]
        rw [← hrev, List.reverse_reverse]

theorem goodField_parts {s : String} (h : goodField s = true) :
    ¬ s = "" ∧ goIsSpace (s.data.headD ' ') = false ∧
    goIsSpace (s.data.getLastD ' ') = false ∧ (s.data.contains '\r') = false := by
  simp only [goodField, Bool.and_eq_true, decide_eq_true_eq] at h
  obtain ⟨h1, h2, h3, h4⟩ := h
  exact ⟨h1, by simpa using h2, by simpa using h3, by simpa using h4⟩

theorem goodField_trim {s : String} (h : goodField s = true) : goTrim s = s := by
  obtain ⟨h1, h2, h3, _⟩ := goodField_parts h
  exact goTrim_of_ends h1 h2 h3

theorem goSplitChar_ne_nil (sep : Char) : ∀ cs : List Char, goSplitChar sep cs ≠ [] := by
  intro cs
  induction cs with
  | nil => simp [goSplitChar]
  | cons c rest ih =>
    cases h : goSplitChar sep rest with
    | nil => exact absurd h ih
    | cons p ps =>
      simp only [goSplitChar]
      rw [h]
      dsimp only []
      by_cases hc : c = sep
      · rw [if_pos hc]; simp
      · rw [if_neg hc]; simp

theorem goSplitChar_no_sep (sep : Char) :
    ∀ cs : List Char, cs.contains sep = false →
    goSplitChar sep cs = [⟨cs⟩] := by
  intro cs
  induction cs with
  | nil => intro _; rfl
  | cons c rest ih =>
    intro h
    simp only [List.contains_cons, Bool.or_eq_false_iff] at h
    obtain ⟨hc, hrest⟩ := h
    simp only [goSplitChar]
    rw [ih hrest]
    dsimp only []
    have hc2 : ¬ c = sep := by
      intro he
      subst he
      simp at hc
    rw [if_neg hc2]

theorem goSplitChar_append_sep (sep : Char) :
    ∀ (xs : List Char), xs.contains sep = false → ∀ (ys : List Char),
    goSplitChar sep (xs ++ sep :: ys) = ⟨xs⟩ :: goSplitChar sep ys := by
  intro xs
  induction xs with
  | nil =>
    intro _ ys
    simp only [List.nil_append]
    simp only [goSplitChar]
    cases h : goSplitChar sep ys with
    | nil => exact absurd h (goSplitChar_ne_nil sep ys)
    | cons p ps => simp
  | cons c rest ih =>
    intro h ys
    simp only [List.contains_cons, Bool.or_eq_false_iff] at h
    obtain ⟨hc, hrest⟩ := h
    have hc2 : ¬ c = sep := by
      intro he
      subst he
      simp at hc
    rw [List.cons_append]
    simp only [goSplitChar]
    rw [ih hrest ys]
    dsimp only []
    rw [if_neg hc2]

theorem goSplit_goJoin : ∀ (ts : List String), ts ≠ [] →
    (∀ t ∈ ts, (t.data.contains ',') = false) →
    goSplitChar ',' (goJoinChar ',' ts).data = ts := by
  intro ts
  induction ts with
  | nil => intro h _; exact absurd rfl h
  | cons t rest ih =>
    intro _ h
    cases rest with
    | nil =>
      rw [show goJoinChar ',' [t] = t from rfl]
      rw [goSplitChar_no_sep ',' t.data (h t (List.mem_cons_self t []))]
    | cons t2 ts2 =>
      rw [show goJoinChar ',' (t :: t2 :: ts2) =
        t ++ (⟨[',']⟩ : String) ++ goJoinChar ',' (t2 :: ts2) from rfl]
      rw [String.data_append, String.data_append]
      rw [List.append_assoc]
      rw [show ((⟨[',']⟩ : String).data ++ (goJoinChar ',' (t2 :: ts2)).data) =
        ',' :: (goJoinChar ',' (t2 :: ts2)).data from rfl]
      rw [goSplitChar_append_sep ',' t.data (h t (List.mem_cons_self t _))]
      rw [ih (by simp) (fun x hx => h x (List.mem_cons_of_mem t hx))]

theorem goodTag_parts {t : String} (h : goodTag t = true) :
    goodField t = true ∧ (t.data.contains ',') = false := by
  simp only [goodTag, Bool.and_eq_true, decide_eq_true_eq] at h
  exact ⟨h.1, by simpa using h.2⟩

theorem getLastD_append_right {α : Type} (d : α) (xs ys : List α)
    (hne : ys ≠ []) : (xs ++ ys).getLastD d = ys.getLastD d := by
  rw [List.getLastD_eq_getLast?, List.getLastD_eq_getLast?,
    List.getLast?_append_of_ne_nil xs hne]

theorem join_good : ∀ (ts : List String), ts ≠ [] →
    (∀ t ∈ ts, goodTag t = true) →
    goodField (goJoinChar ',' ts) = true := by
  intro ts
  induction ts with
  | nil => intro h _; exact absurd rfl h
  | cons t rest ih =>
    intro _ h
    cases rest with
    | nil => exact (goodTag_parts (h t (List.mem_cons_self t []))).1
    | cons t2 ts2 =>
      have ht := goodField_parts (goodTag_parts (h t (List.mem_cons_self t _))).1
      have hj := goodField_parts (ih (by simp)
        (fun x hx => h x (List.mem_cons_of_mem t hx)))
      rw [show goJoinChar ',' (t :: t2 :: ts2) =
        t ++ (⟨[',']⟩ : String) ++ goJoinChar ',' (t2 :: ts2) from rfl]
      have hdata : (t ++ (⟨[',']⟩ : String) ++ goJoinChar ',' (t2 :: ts2)).data =
          t.data ++ (',' :: (goJoinChar ',' (t2 :: ts2)).data) := by
        rw [String.data_append, String.data_append, List.append_assoc]
        rfl
      have htne : t.data ≠ [] := by
        intro hnil
        exact ht.1 (by cases t with | mk l => simp at hnil; simp [hnil])
      have hjne : (goJoinChar ',' (t2 :: ts2)).data ≠ [] := by
        intro hnil
        exact hj.1 (by
          cases hc : goJoinChar ',' (t2 :: ts2) with
          | mk l => rw [hc] at hnil; simp at hnil; simp [hnil])
      simp only [goodField, Bool.and_eq_true, decide_eq_true_eq]
      refine ⟨?_, ?_, ?_, ?_⟩
      · intro hemp
        have := congrArg String.data hemp
        rw [hdata] at this
        simp at this
      · rw [hdata]
        cases hcs : t.data with
        | nil => exact absurd hcs htne
        | cons c cs =>
          rw [List.cons_append]
          rw [List.headD_cons]
          have := ht.2.1
          rw [hcs] at this
          simpa using this
      · rw [hdata]
        rw [getLastD_append_right ' ' t.data _ (by simp)]
        have hstep : (',' :: (goJoinChar ',' (t2 :: ts2)).data).getLastD ' ' =
            ((goJoinChar ',' (t2 :: ts2)).data).getLastD ' ' := by
          cases hc : (goJoinChar ',' (t2 :: ts2)).data with
          | nil => exact absurd hc hjne
          | cons a as => simp [List.getLastD_cons]
        rw [hstep]
        have := hj.2.2.1
        simpa using this
      · rw [hdata]
        intro hcon
        have hmem : ('\r' : Char) ∈ t.data ++ ',' :: (goJoinChar ',' (t2 :: ts2)).data := by
          simpa using hcon
        rcases List.mem_append.mp hmem with h1 | h2
        · have := ht.2.2.2
          simp at this
          exact this h1
        · rcases List.mem_cons.mp h2 with h3 | h4
          · simp at h3
          · have := hj.2.2.2
            simp at this
            exact this h4

def decodeRow (r : Row) : Word :=
  { id := r.id, word := r.word, source := r.source, dateLearned := r.dateLearned,
    partOfSpeech := r.partOfSpeech, exampleSentence := r.exampleSentence,
    tags := (tagsFromJson r.tagsJson).getD none,
    createdAt := r.createdAt, updatedAt := r.updatedAt }

theorem scanWord_decode {r : Row} (h : goodTags r = true) :
    scanWord r = Except.ok (decodeRow r) := by
  cases hj : tagsFromJson r.tagsJson with
  | none => simp [goodTags, hj] at h
  | some o =>
    cases o with
    | none => simp [goodTags, hj] at h
    | some ts =>
      unfold scanWord decodeRow
      rw [hj]
      rfl

theorem goodRow_parts {r : Row} (h : goodRow r = true) :
    goodField r.word = true ∧ goodField r.source = true ∧
    goodField r.dateLearned = true ∧ goodOpt r.partOfSpeech = true ∧
    goodOpt r.exampleSentence = true ∧ goodTags r = true := by
  simp only [goodRow, Bool.and_eq_true, decide_eq_true_eq] at h
  exact h

theorem goodWord_decodeRow {r : Row} (h : goodRow r = true) :
    goodWord (decodeRow r) = true := by
  obtain ⟨h1, h2, h3, h4, h5, h6⟩ := goodRow_parts h
  cases hj : tagsFromJson r.tagsJson with
  | none => simp [goodTags, hj] at h6
  | some o =>
    cases o with
    | none => simp [goodTags, hj] at h6
    | some ts =>
      have hts : ts.all goodTag = true := by simpa [goodTags, hj] using h6
      simp only [goodWord, decodeRow, hj, Bool.and_eq_true, decide_eq_true_eq]
      exact ⟨h1, h2, h3, h4, h5, by simpa [goodWordTags] using hts⟩

theorem wordTuple_decodeRow (r : Row) : wordTuple (decodeRow r) = rowTuple r := rfl


theorem importRow6_ok (w : Word) (st : Store) (ln now : Nat) (res : ImportResult)
    (hg : goodWord w = true)
    (hdup : st.rows.find? (fun r => r.word = w.word) = none) :
    importRow exportHeader (exportRecord w) st ln now res =
      ({ res with imported := res.imported + 1 },
       { rows := st.rows ++ [rowFor st.nextId now w],
         nextId := st.nextId + 1 }) := by
  simp only [goodWord, Bool.and_eq_true, decide_eq_true_eq] at hg
  obtain ⟨hw, hs, hd, hp, he, ht⟩ := hg
  have hwt := goodField_trim hw
  have hst2 := goodField_trim hs
  have hdt := goodField_trim hd
  have hw0 : ¬ w.word = "" := (goodField_parts hw).1
  have hs0 : ¬ w.source = "" := (goodField_parts hs).1
  have hd0 : ¬ w.dateLearned = "" := (goodField_parts hd).1
  have hany : st.rows.any (fun r => r.word = w.word) = false := by
    rw [List.any_eq_false]
    intro r hr
    have := List.find?_eq_none.mp hdup r hr
    simpa using this
  have hget : repoGetByWord st w.word = Except.error errNoRows := by
    unfold repoGetByWord
    rw [hdup]
  cases hta : w.tags with
  | none =>
    rw [hta] at ht
    simp [goodWordTags] at ht
  | some ts =>
    have hall : ∀ x ∈ ts, goodTag x = true := by
      rw [hta] at ht
      simp only [goodWordTags, List.all_eq_true] at ht
      exact ht
    have hcreate : repoCreate st
        { id := 0, word := w.word, source := w.source,
          dateLearned := w.dateLearned, partOfSpeech := w.partOfSpeech,
          exampleSentence := w.exampleSentence, tags := some ts,
          createdAt := 0, updatedAt := 0 } now =
        Except.ok
          ({ id := st.nextId, word := w.word, source := w.source,
             dateLearned := w.dateLearned, partOfSpeech := w.partOfSpeech,
             exampleSentence := w.exampleSentence, tags := some ts,
             createdAt := now, updatedAt := now },
           { rows := st.rows ++ [rowFor st.nextId now w],
             nextId := st.nextId + 1 }) := by
      unfold repoCreate
      rw [if_neg (by simp [hany])]
      simp [rowFor, hta]
    have hpos : (if 3 < (exportRecord w).length ∧
          goTrim ((w.partOfSpeech).getD "") ≠ "" then
        some (goTrim ((w.partOfSpeech).getD "")) else none) = w.partOfSpeech := by
      cases hpo : w.partOfSpeech with
      | none =>
        rw [if_neg]
        intro hcond
        exact hcond.2 rfl
      | some p =>
        have hgp : goodField p = true := by
          rw [hpo] at hp
          simpa [goodOpt] using hp
        have hpt := goodField_trim hgp
        have hp0 := (goodField_parts hgp).1
        rw [if_pos]
        · rw [show ((some p).getD "" : String) = p from rfl, hpt]
        · refine ⟨by show (3 : Nat) < 6; decide, ?_⟩
          rw [show ((some p).getD "" : String) = p from rfl, hpt]
          exact hp0
    have hexs : (if 4 < (exportRecord w).length ∧
          goTrim ((w.exampleSentence).getD "") ≠ "" then
        some (goTrim ((w.exampleSentence).getD "")) else none) = w.exampleSentence := by
      cases heo : w.exampleSentence with
      | none =>
        rw [if_neg]
        intro hcond
        exact hcond.2 rfl
      | some p =>
        have hgp : goodField p = true := by
          rw [heo] at he
          simpa [goodOpt] using he
        have hpt := goodField_trim hgp
        have hp0 := (goodField_parts hgp).1
        rw [if_pos]
        · rw [show ((some p).getD "" : String) = p from rfl, hpt]
        · refine ⟨by show (4 : Nat) < 6; decide, ?_⟩
          rw [show ((some p).getD "" : String) = p from rfl, hpt]
          exact hp0
    have htags : (if 5 < (exportRecord w).length ∧
          goTrim (goJoinChar ',' ((w.tags).getD [])) ≠ "" then
        (goSplitChar ',' (goTrim (goJoinChar ',' ((w.tags).getD []))).data).map goTrim
      else []) = ts := by
      rw [hta, show ((some ts).getD [] : List String) = ts from rfl]
      cases ts with
      | nil =>
        rw [if_neg]
        intro hcond
        exact hcond.2 rfl
      | cons t ts2 =>
        have hall2 : ∀ x ∈ t :: ts2, goodTag x = true := hall
        have hjg := join_good (t :: ts2) (by simp) hall2
        have hjt := goodField_trim hjg
        have hj0 := (goodField_parts hjg).1
        rw [hjt]
        rw [if_pos ⟨by show (5 : Nat) < 6; decide, hj0⟩]
        rw [goSplit_goJoin _ (by simp) (fun x hx => (goodTag_parts (hall2 x hx)).2)]
        exact map_eq_self_of_all _ _
          (fun x hx => goodField_trim (goodTag_parts (hall2 x hx)).1)
    unfold importRow
    rw [show lookupCol exportHeader "word" = some 0 from rfl,
        show lookupCol exportHeader "source" = some 1 from rfl,
        show lookupCol exportHeader "date_learned" = some 2 from rfl,
        show lookupCol exportHeader "part_of_speech" = some 3 from rfl,
        show lookupCol exportHeader "example_sentence" = some 4 from rfl,
        show lookupCol exportHeader "tags" = some 5 from rfl]
    dsimp only []
    rw [show fieldAt (exportRecord w) ((some 0).getD 0) = w.word from rfl,
        show fieldAt (exportRecord w) ((some 1).getD 0) = w.source from rfl,
        show fieldAt (exportRecord w) ((some 2).getD 0) = w.dateLearned from rfl,
        show fieldAt (exportRecord w) 3 = (w.partOfSpeech).getD "" from rfl,
        show fieldAt (exportRecord w) 4 = (w.exampleSentence).getD "" from rfl,
        show fieldAt (exportRecord w) 5 = goJoinChar ',' ((w.tags).getD []) from rfl]
    rw [hwt, hst2, hdt]
    rw [if_neg (by simp [hw0, hs0, hd0])]
    rw [hpos, hexs, htags]
    rw [hget]
    dsimp only []
    rw [hcreate]


/-- The data records of the export, one written record per word. -/
def exportBody : List Word → String
  | [] => ""
  | w :: ws => csvWriteRecord (exportRecord w) ++ exportBody ws

theorem string_foldl_append (l : List String) :
    ∀ (a b : String), l.foldl (fun r t => r ++ t) (a ++ b) =
      a ++ l.foldl (fun r t => r ++ t) b := by
  induction l with
  | nil => intro a b; rfl
  | cons x xs ih =>
    intro a b
    show xs.foldl (fun r t => r ++ t) ((a ++ b) ++ x) = _
    rw [String.append_assoc, ih a (b ++ x)]
    rfl

theorem exportBody_eq_join (ws : List Word) :
    String.join (ws.map (fun w => csvWriteRecord (exportRecord w))) = exportBody ws := by
  induction ws with
  | nil => rfl
  | cons x xs ih =>
    show (xs.map (fun w => csvWriteRecord (exportRecord w))).foldl
      (fun r t => r ++ t) ("" ++ csvWriteRecord (exportRecord x)) = _
    rw [show ("" ++ csvWriteRecord (exportRecord x) : String) =
      csvWriteRecord (exportRecord x) ++ "" from by
        cases csvWriteRecord (exportRecord x) with
        | mk l => apply congrArg String.mk; simp]
    rw [string_foldl_append]
    show csvWriteRecord (exportRecord x) ++ String.join _ = _
    rw [ih]
    rfl

theorem exportBody_length_ge : ∀ ws : List Word,
    ws.length ≤ (exportBody ws).data.length := by
  intro ws
  induction ws with
  | nil => simp [exportBody]
  | cons x xs ih =>
    rw [show exportBody (x :: xs) =
      csvWriteRecord (exportRecord x) ++ exportBody xs from rfl]
    rw [String.data_append]
    have h1 := csvWriteRecord_length_ge (exportRecord x)
    have h2 : (exportRecord x).length = 6 := rfl
    simp only [List.length_append, List.length_cons]
    omega

theorem importLoop_export : ∀ (ws : List Word) (fuel : Nat) (st : Store)
    (ln now : Nat) (res : ImportResult),
    ws.length ≤ fuel →
    (∀ x ∈ ws, goodWord x = true) →
    (ws.map Word.word).Nodup →
    (∀ x ∈ ws, ∀ r ∈ st.rows, ¬ r.word = x.word) →
    importLoop fuel exportHeader st (exportBody ws).data ln now res =
      ({ res with imported := res.imported + ws.length },
       { rows := st.rows ++ insertedRows st.nextId now ws,
         nextId := st.nextId + ws.length }) := by
  intro ws
  induction ws with
  | nil =>
    intro fuel st ln now res _ _ _ _
    simp only [List.length_nil, insertedRows, List.append_nil, Nat.add_zero]
    cases fuel with
    | zero => rfl
    | succ f => exact importLoop_eof f exportHeader st ln now res
  | cons x ws ih =>
    intro fuel st ln now res hfuel hgood hnodup hdisj
    match fuel, hfuel with
    | fuel + 1, hfuel =>
      have hdata : (exportBody (x :: ws)).data =
          (csvWriteRecord (exportRecord x)).data ++ (exportBody ws).data := by
        rw [show exportBody (x :: ws) =
          csvWriteRecord (exportRecord x) ++ exportBody ws from rfl, String.data_append]
      rw [hdata]
      have hread := readRecord_record (exportRecord x) (exportBody ws).data
        (by show (2 : Nat) ≤ 6; decide)
      rw [importLoop_step fuel exportHeader st _ ln now res (exportRecord x)
        (exportBody ws).data hread rfl]
      have hdup : st.rows.find? (fun r => r.word = x.word) = none := by
        rw [List.find?_eq_none]
        intro r hr
        simpa using hdisj x (List.mem_cons_self x ws) r hr
      rw [importRow6_ok x st ln now res (hgood x (List.mem_cons_self x ws)) hdup]
      have hnd := hnodup
      simp only [List.map_cons, List.nodup_cons, List.mem_map] at hnd
      rw [ih fuel _ (ln + 1) now _
        (by simp only [List.length_cons] at hfuel; omega)
        (fun y hy => hgood y (List.mem_cons_of_mem x hy))
        hnd.2
        (by
          intro y hy r hr
          rcases List.mem_append.mp hr with hold | hnew
          · exact hdisj y (List.mem_cons_of_mem x hy) r hold
          · have hrx : r = rowFor st.nextId now x := by simpa using hnew
            rw [hrx]
            show ¬ x.word = y.word
            intro he
            exact hnd.1 ⟨y, hy, he.symm⟩)]
      simp only [Prod.mk.injEq]
      refine ⟨?_, ?_⟩
      · show ImportResult.mk (res.imported + 1 + ws.length) res.skipped res.errors =
          ImportResult.mk (res.imported + (x :: ws).length) res.skipped res.errors
        rw [show res.imported + 1 + ws.length = res.imported + (x :: ws).length from by
          simp only [List.length_cons]; omega]
      · show Store.mk ((st.rows ++ [rowFor st.nextId now x]) ++
            insertedRows (st.nextId + 1) now ws) (st.nextId + 1 + ws.length) =
          Store.mk (st.rows ++ insertedRows st.nextId now (x :: ws))
            (st.nextId + (x :: ws).length)
        rw [List.append_assoc]
        rw [show [rowFor st.nextId now x] ++ insertedRows (st.nextId + 1) now ws =
          insertedRows st.nextId now (x :: ws) from rfl]
        rw [show st.nextId + 1 + ws.length = st.nextId + (x :: ws).length from by
          simp only [List.length_cons]; omega]


theorem map_ext_mem {α β : Type} (l : List α) (f g : α → β)
    (h : ∀ x ∈ l, f x = g x) : l.map f = l.map g := by
  induction l with
  | nil => rfl
  | cons a as ih =>
    simp only [List.map_cons]
    rw [h a (List.mem_cons_self a as), ih (fun x hx => h x (List.mem_cons_of_mem a hx))]

theorem exportCSV_wf (st : Store) (h : ∀ r ∈ st.rows, goodRow r = true) :
    exportCSV st = Except.ok
      (csvWriteRecord exportHeader ++ exportBody ((sortRows st.rows).map decodeRow)) := by
  have hperm : List.Perm (sortRows st.rows) st.rows := List.perm_insertionSort rowLe st.rows
  have hlist : repoList st {} = scanRows (sortRows st.rows) := by
    unfold repoList sqlExecList
    simp [buildListQuery, List.filter_true]
  have hscan : scanRows (sortRows st.rows) =
      Except.ok ((sortRows st.rows).map decodeRow) :=
    scanRows_ok_of_forall decodeRow _ (fun r hr =>
      scanWord_decode (goodRow_parts (h r (hperm.mem_iff.mp hr))).2.2.2.2.2)
  unfold exportCSV
  rw [hlist, hscan]
  dsimp only []
  rw [exportBody_eq_join]

theorem importCSV_export (ws : List Word) (now : Nat)
    (hgood : ∀ x ∈ ws, goodWord x = true) (hnodup : (ws.map Word.word).Nodup) :
    importCSV emptyStore (csvWriteRecord exportHeader ++ exportBody ws) now =
      (Except.ok { imported := ws.length, skipped := 0, errors := [] },
       { rows := insertedRows 1 now ws, nextId := 1 + ws.length }) := by
  unfold importCSV
  have hread : readRecord (csvWriteRecord exportHeader ++ exportBody ws).data =
      (Except.ok exportHeader, (exportBody ws).data) := by
    rw [String.data_append]
    exact readRecord_record exportHeader (exportBody ws).data (by show (2 : Nat) ≤ 6; decide)
  rw [hread]
  dsimp only []
  rw [show requiredCols.find? (fun c => (lookupCol exportHeader c).isNone) = none from rfl]
  dsimp only []
  rw [importLoop_export ws ((exportBody ws).data.length + 1) emptyStore 2 now
    { imported := 0, skipped := 0, errors := [] }
    (by have := exportBody_length_ge ws; omega) hgood hnodup
    (by intro x hx r hr; simp [emptyStore] at hr)]
  simp [emptyStore]

theorem storeTuples_wf (st : Store) (h : ∀ r ∈ st.rows, goodRow r = true) :
    storeTuples st = Except.ok (st.rows.map rowTuple) := by
  unfold storeTuples
  rw [scanRows_ok_of_forall decodeRow st.rows (fun r hr =>
    scanWord_decode (goodRow_parts (h r hr)).2.2.2.2.2)]
  show Except.ok ((st.rows.map decodeRow).map wordTuple) = _
  rw [List.map_map]
  rw [map_ext_mem st.rows (wordTuple ∘ decodeRow) rowTuple
    (fun r _ => wordTuple_decodeRow r)]

theorem decodeRow_rowFor (n now : Nat) (w : Word) {ts : List String}
    (hts : w.tags = some ts) :
    decodeRow (rowFor n now w) =
      { w with id := n, createdAt := now, updatedAt := now } := by
  unfold decodeRow rowFor
  rw [hts, tagsFromJson_tagsToJson]
  rw [show ((some (some ts) : Option (Option (List String))).getD none) = some ts from rfl,
    ← hts]

theorem goodWord_tags_some {w : Word} (hg : goodWord w = true) :
    ∃ ts, w.tags = some ts ∧ ts.all goodTag = true := by
  simp only [goodWord, Bool.and_eq_true, decide_eq_true_eq] at hg
  obtain ⟨_, _, _, _, _, ht⟩ := hg
  cases hta : w.tags with
  | none => rw [hta] at ht; simp [goodWordTags] at ht
  | some ts =>
    rw [hta] at ht
    exact ⟨ts, rfl, by simpa [goodWordTags] using ht⟩

theorem goodTags_rowFor {w : Word} (k now : Nat) (hg : goodWord w = true) :
    goodTags (rowFor k now w) = true := by
  obtain ⟨ts, hts, hall⟩ := goodWord_tags_some hg
  unfold goodTags rowFor
  dsimp only []
  rw [hts, tagsFromJson_tagsToJson]
  exact hall

theorem mem_insertedRows : ∀ (ws : List Word) (n now : Nat) (r : Row),
    r ∈ insertedRows n now ws → ∃ w ∈ ws, ∃ k, r = rowFor k now w := by
  intro ws
  induction ws with
  | nil => intro n now r hr; simp [insertedRows] at hr
  | cons x xs ih =>
    intro n now r hr
    rcases List.mem_cons.mp hr with h1 | h2
    · exact ⟨x, List.mem_cons_self x xs, n, h1⟩
    · obtain ⟨w, hw, k, hk⟩ := ih (n + 1) now r h2
      exact ⟨w, List.mem_cons_of_mem x hw, k, hk⟩

theorem tuples_insertedRows : ∀ (ws : List Word) (n now : Nat),
    (∀ x ∈ ws, goodWord x = true) →
    ((insertedRows n now ws).map (fun r => wordTuple (decodeRow r))) =
      ws.map wordTuple := by
  intro ws
  induction ws with
  | nil => intro n now _; rfl
  | cons x xs ih =>
    intro n now hg
    obtain ⟨ts, hts, _⟩ := goodWord_tags_some (hg x (List.mem_cons_self x xs))
    show (wordTuple (decodeRow (rowFor n now x))) ::
        ((insertedRows (n + 1) now xs).map (fun r => wordTuple (decodeRow r))) = _
    rw [decodeRow_rowFor n now x hts]
    rw [ih (n + 1) now (fun y hy => hg y (List.mem_cons_of_mem x hy))]
    rfl

theorem storeTuples_insertedRows (ws : List Word) (n now : Nat)
    (hg : ∀ x ∈ ws, goodWord x = true) :
    scanRows (insertedRows n now ws) =
      Except.ok ((insertedRows n now ws).map decodeRow) ∧
    ((insertedRows n now ws).map decodeRow).map wordTuple = ws.map wordTuple := by
  constructor
  · exact scanRows_ok_of_forall decodeRow _ (fun r hr => by
      obtain ⟨w, hw, k, hk⟩ := mem_insertedRows ws n now r hr
      rw [hk]
      exact scanWord_decode (goodTags_rowFor k now (hg w hw)))
  · rw [List.map_map]
    exact tuples_insertedRows ws n now hg


/- ## Claim C2: export/import round-trip -/

def c2BadRow : Row :=
  { id := 1, word := "w", source := "s", dateLearned := "2024-01-01",
    partOfSpeech := none, exampleSentence := none,
    tagsJson := tagsToJson (some ["a,b"]), createdAt := 0, updatedAt := 0 }

def c2BadStore : Store := { rows := [c2BadRow], nextId := 2 }

/-- C2 amended: for a store whose rows are pairwise distinct words with
non-empty trim-stable fields and comma-free non-empty tags, export followed
by import into the empty store succeeds with every row imported, none
skipped and no error, and reproduces the multiset of
(word, source, dateLearned, partOfSpeech, exampleSentence, tags) tuples.
Embedded commas in tag entries are excluded: the export writes tags as one
comma-joined field and the import splits that field on every comma, so such
tags do not survive (see the counterexample). -/
theorem C2_roundtrip_amended (st : Store) (now : Nat) (hwf : wellFormedStore st) :
    ∃ out res st2,
      exportCSV st = Except.ok out ∧
      importCSV emptyStore out now = (Except.ok res, st2) ∧
      res.imported = st.rows.length ∧ res.skipped = 0 ∧ res.errors = [] ∧
      ∃ tus tus2, storeTuples st = Except.ok tus ∧
        storeTuples st2 = Except.ok tus2 ∧ List.Perm tus2 tus := by
  obtain ⟨hnd, hrows⟩ := hwf
  have hperm : List.Perm (sortRows st.rows) st.rows :=
    List.perm_insertionSort rowLe st.rows
  have hgoodws : ∀ x ∈ (sortRows st.rows).map decodeRow, goodWord x = true := by
    intro x hx
    obtain ⟨r, hr, hxr⟩ := List.mem_map.mp hx
    rw [← hxr]
    exact goodWord_decodeRow (hrows r (hperm.mem_iff.mp hr))
  have hnodws : (((sortRows st.rows).map decodeRow).map Word.word).Nodup := by
    rw [List.map_map]
    rw [map_ext_mem _ (Word.word ∘ decodeRow) Row.word (fun r _ => rfl)]
    exact ((hperm.map Row.word).nodup_iff).mpr hnd
  obtain ⟨hscan2, htup2⟩ :=
    storeTuples_insertedRows ((sortRows st.rows).map decodeRow) 1 now hgoodws
  refine ⟨_, _, _, exportCSV_wf st hrows,
    importCSV_export ((sortRows st.rows).map decodeRow) now hgoodws hnodws,
    ?_, rfl, rfl, ?_⟩
  · show ((sortRows st.rows).map decodeRow).length = st.rows.length
    rw [List.length_map]
    exact hperm.length_eq
  · refine ⟨st.rows.map rowTuple, ((sortRows st.rows).map decodeRow).map wordTuple,
      storeTuples_wf st hrows, ?_, ?_⟩
    · show (scanRows (insertedRows 1 now ((sortRows st.rows).map decodeRow))).map
        (List.map wordTuple) = _
      rw [hscan2]
      show Except.ok (((insertedRows 1 now ((sortRows st.rows).map decodeRow)).map
        decodeRow).map wordTuple) = _
      rw [htup2]
    · rw [List.map_map]
      rw [map_ext_mem _ (wordTuple ∘ decodeRow) rowTuple
        (fun r _ => wordTuple_decodeRow r)]
      exact hperm.map rowTuple

def c2WfRow1 : Row :=
  { id := 1, word := "ephemeral", source := "Book", dateLearned := "2024-01-15",
    partOfSpeech := some "adjective", exampleSentence := none,
    tagsJson := tagsToJson (some ["latin", "rare"]), createdAt := 0, updatedAt := 0 }

def c2WfRow2 : Row :=
  { id := 2, word := "ubiquitous", source := "Article", dateLearned := "2024-02-20",
    partOfSpeech := none, exampleSentence := some "It is ubiquitous.",
    tagsJson := tagsToJson (some []), createdAt := 0, updatedAt := 0 }

def c2WfStore : Store := { rows := [c2WfRow1, c2WfRow2], nextId := 3 }

/-- C2 amended, witnessed on a concrete two-row well-formed store (distinct
words, an optional field present on each side, a two-tag list and an empty
tag list). -/
theorem C2_roundtrip_amended_witness :
    ∃ out res st2,
      exportCSV c2WfStore = Except.ok out ∧
      importCSV emptyStore out 7 = (Except.ok res, st2) ∧
      res.imported = c2WfStore.rows.length ∧ res.skipped = 0 ∧ res.errors = [] ∧
      ∃ tus tus2, storeTuples c2WfStore = Except.ok tus ∧
        storeTuples st2 = Except.ok tus2 ∧ List.Perm tus2 tus :=
  C2_roundtrip_amended c2WfStore 7 (by decide)

/-- C2 counterexample: a stored word whose single tag has an embedded comma.
Export succeeds and the re-import succeeds with nothing skipped, but the
tag list comes back as two tags — the round-trip does not reproduce the
tuple multiset, refuting the "including words whose tag entries contain
embedded commas" part of the claim. -/
theorem C2_roundtrip_counterexample :
    ∃ out : String,
      exportCSV c2BadStore = Except.ok out ∧
      storeTuples c2BadStore =
        Except.ok [("w", "s", "2024-01-01", none, none, ["a,b"])] ∧
      (importCSV emptyStore out 7).1 =
        Except.ok { imported := 1, skipped := 0, errors := [] } ∧
      storeTuples (importCSV emptyStore out 7).2 =
        Except.ok [("w", "s", "2024-01-01", none, none, ["a", "b"])] ∧
      ¬ (([("w", "s", "2024-01-01", none, none, ["a", "b"])] : List WordTuple).Perm
          [("w", "s", "2024-01-01", none, none, ["a,b"])]) :=
  ⟨_, rfl, rfl, rfl, rfl, fun hp => absurd
    (List.mem_singleton.mp (hp.mem_iff.mp (List.mem_singleton_self _)))
    (by decide)⟩

end Vocab
